import Mathlib

/-! # goagent: message model, backends, agent

A shallow embedding of `types/role.go`, `types/message.go`, `models/gemini.go`,
`models/mock.go` and `agent.go`, with the properties proved about them.

Go strings are immutable byte sequences: `len` counts bytes, slicing cuts at
byte offsets, `==` compares bytes.  They are embedded as `List UInt8`.  A
function that returns `(string, error)` returns a pair, `none` for the `nil`
error; a backend is called with its state and returns the state it leaves.
-/

namespace GoAgent

/-! ## Go strings -/

/-- A Go `string`: a sequence of bytes. -/
abbrev GoString := List UInt8

/-- The bytes of a string literal of the source (Go source text is UTF-8). -/
def str (s : String) : GoString := s.toUTF8.data.toList

/-- Go `strings.Join(elems, sep)`: the elements concatenated, `sep` between
each two neighbours. -/
def Join : List GoString → GoString → GoString
  | [], _ => []
  | [a], _ => a
  | a :: b :: rest, sep => a ++ sep ++ Join (b :: rest) sep

/-! ## types/role.go -/

/-- Go `type Role string`. -/
abbrev Role := GoString

/-- Go `RoleUser Role = "user"`. -/
def RoleUser : Role := str "user"

/-- Go `RoleAssistant Role = "assistant"`. -/
def RoleAssistant : Role := str "assistant"

/-- Go `RoleSystem Role = "system"`. -/
def RoleSystem : Role := str "system"

/-- Go `func (r Role) IsValid() bool`: a `switch` over the three constants. -/
def Role.IsValid (r : Role) : Bool :=
  if r = RoleUser ∨ r = RoleAssistant ∨ r = RoleSystem then true else false

/-! ## types/message.go: the data -/

/-- Go `type Message struct { Role Role; Content string }`. -/
structure Message where
  /-- The role of the message sender. -/
  Role : GoAgent.Role
  /-- The message content. -/
  Content : GoString
deriving DecidableEq, Repr

/-- Go `NewMessage(role, content)`. -/
def NewMessage (role : Role) (content : GoString) : Message :=
  { Role := role, Content := content }

/-- Go `NewUserMessage(content)`. -/
def NewUserMessage (content : GoString) : Message :=
  { Role := RoleUser, Content := content }

/-- Go `NewAssistantMessage(content)`. -/
def NewAssistantMessage (content : GoString) : Message :=
  { Role := RoleAssistant, Content := content }

/-- Go `NewSystemMessage(content)`. -/
def NewSystemMessage (content : GoString) : Message :=
  { Role := RoleSystem, Content := content }

/-- Go `func (m Message) IsUser() bool`. -/
def Message.IsUser (m : Message) : Bool := decide (m.Role = RoleUser)

/-- Go `func (m Message) IsAssistant() bool`. -/
def Message.IsAssistant (m : Message) : Bool := decide (m.Role = RoleAssistant)

/-- Go `func (m Message) IsSystem() bool`. -/
def Message.IsSystem (m : Message) : Bool := decide (m.Role = RoleSystem)

/-! ## models/gemini.go: message translation -/

/-- Go `type GeminiPart struct { Text string }`. -/
structure GeminiPart where
  /-- The text of the part. -/
  Text : GoString
deriving DecidableEq, Repr

/-- Go `type GeminiMessage struct { Role string; Parts []GeminiPart }`. -/
structure GeminiMessage where
  /-- The vendor role tag. -/
  Role : GoString
  /-- The parts of the message. -/
  Parts : List GeminiPart
deriving DecidableEq, Repr

/-- The errors of `convertMessages`: its one `fmt.Errorf`,
`"no valid messages to send"`. -/
inductive ConvertError where
  | NoValidMessages
deriving DecidableEq, Repr

/-- The two local variables of `convertMessages` that the loop updates. -/
structure ConvertState where
  /-- Go `var geminiMessages []GeminiMessage`. -/
  geminiMessages : List GeminiMessage
  /-- Go `var systemInstructions []string`. -/
  systemInstructions : List GoString
deriving DecidableEq, Repr

/-- The separator `"\n\n"` of `convertMessages`. -/
def blankLine : GoString := str "\n\n"

/-- One iteration of the `for _, msg := range messages` loop of
`convertMessages`: the `switch msg.Role` with its three cases, in the order of
the source; a role matching no case leaves the state as it is. -/
def GeminiModel.convertStep (st : ConvertState) (msg : Message) : ConvertState :=
  if msg.Role = RoleSystem then
    { st with systemInstructions := st.systemInstructions ++ [msg.Content] }
  else if msg.Role = RoleUser then
    if st.systemInstructions.length > 0 then
      { geminiMessages := st.geminiMessages ++
          [{ Role := str "user",
             Parts := [{ Text := Join st.systemInstructions blankLine ++ blankLine
                                   ++ msg.Content }] }],
        systemInstructions := [] }
    else
      { st with geminiMessages := st.geminiMessages ++
          [{ Role := str "user", Parts := [{ Text := msg.Content }] }] }
  else if msg.Role = RoleAssistant then
    { st with geminiMessages := st.geminiMessages ++
        [{ Role := str "model", Parts := [{ Text := msg.Content }] }] }
  else st

/-- The loop of `convertMessages`, from the two empty slices. -/
def GeminiModel.convertLoop (messages : List Message) : ConvertState :=
  messages.foldl GeminiModel.convertStep { geminiMessages := [], systemInstructions := [] }

/-- Go `func (g *GeminiModel) convertMessages(messages []types.Message)
([]GeminiMessage, error)`; the receiver is not read. -/
def GeminiModel.convertMessages (messages : List Message) :
    Except ConvertError (List GeminiMessage) :=
  let st := GeminiModel.convertLoop messages
  if st.geminiMessages.length = 0 then .error .NoValidMessages
  else .ok st.geminiMessages

/-! ## Predicates for stating the properties of the translation -/

/-- How one input message relates to the vendor message made from it. -/
def Translates (m : Message) (g : GeminiMessage) : Prop :=
  (m.Role = RoleAssistant ∧ g = { Role := str "model", Parts := [{ Text := m.Content }] }) ∨
  (m.Role = RoleUser ∧ g.Role = str "user" ∧
    ∃ pre : GoString, g.Parts = [{ Text := pre ++ m.Content }])

/-- The input messages that `convertMessages` turns into a vendor message. -/
def isTurn (m : Message) : Bool := decide (m.Role = RoleUser ∨ m.Role = RoleAssistant)


/-! ## Unicode white space (Go `unicode.IsSpace`, `strings.TrimSpace`) -/

/-- The code points for which Go `unicode.IsSpace` holds: `'\t'`, `'\n'`,
`'\v'`, `'\f'`, `'\r'`, `' '`, U+0085 (NEL), U+00A0 (NBSP) in Latin-1, and the
`White_Space` property beyond it: U+1680, U+2000..U+200A, U+2028, U+2029,
U+202F, U+205F, U+3000. -/
def whiteSpace : List Nat :=
  [0x09, 0x0A, 0x0B, 0x0C, 0x0D, 0x20, 0x85, 0xA0, 0x1680,
   0x2000, 0x2001, 0x2002, 0x2003, 0x2004, 0x2005, 0x2006, 0x2007, 0x2008, 0x2009, 0x200A,
   0x2028, 0x2029, 0x202F, 0x205F, 0x3000]

/-- The UTF-8 encodings of the white-space code points.  A rune that Go decodes
from a string is one of these code points exactly when the bytes it was decoded
from are one of these encodings: bytes that are no valid encoding decode to
U+FFFD, which is not white space. -/
def spaceRunes : List GoString :=
  whiteSpace.map (fun n => str (String.singleton (Char.ofNat n)))

/-- Width in bytes of the white-space rune at the start of `s`, 0 when `s` does
not start with one. -/
def leadingSpace (s : GoString) : Nat :=
  match spaceRunes.find? (fun w => w.isPrefixOf s) with
  | some w => w.length
  | none => 0

/-- Width in bytes of the white-space rune at the end of `s`, 0 when `s` does
not end with one. -/
def trailingSpace (s : GoString) : Nat :=
  match spaceRunes.find? (fun w => w.isSuffixOf s) with
  | some w => w.length
  | none => 0

/-- Removes leading white-space runes, at most `fuel` of them. -/
def trimLeftFuel : Nat → GoString → GoString
  | 0, s => s
  | fuel + 1, s =>
    if leadingSpace s = 0 then s else trimLeftFuel fuel (s.drop (leadingSpace s))

/-- Removes trailing white-space runes, at most `fuel` of them. -/
def trimRightFuel : Nat → GoString → GoString
  | 0, s => s
  | fuel + 1, s =>
    if trailingSpace s = 0 then s
    else trimRightFuel fuel (s.take (s.length - trailingSpace s))

/-- Go `strings.TrimLeftFunc(s, unicode.IsSpace)`; a string of `n` bytes has at
most `n` runes. -/
def TrimLeftSpace (s : GoString) : GoString := trimLeftFuel s.length s

/-- Go `strings.TrimRightFunc(s, unicode.IsSpace)`. -/
def TrimRightSpace (s : GoString) : GoString := trimRightFuel s.length s

/-- Go `strings.TrimSpace(s)`: `s` without its leading and trailing white
space, as Unicode defines it. -/
def TrimSpace (s : GoString) : GoString := TrimRightSpace (TrimLeftSpace s)

/-! ## types/message.go: the methods -/

/-- Go `func (m Message) IsEmpty() bool`:
`strings.TrimSpace(m.Content) == ""`. -/
def Message.IsEmpty (m : Message) : Bool := decide (TrimSpace m.Content = [])

/-- The errors of `Validate`, with the role each message prints:
`"invalid role '%s', must be one of: %s, %s, %s"` and
`"message content cannot be empty for role '%s'"`. -/
inductive ValidateError where
  | InvalidRole (role : Role)
  | EmptyContent (role : Role)
deriving DecidableEq, Repr

/-- Go `func (m Message) Validate() error`; `nil` is `.ok ()`. -/
def Message.Validate (m : Message) : Except ValidateError Unit :=
  if !Role.IsValid m.Role then .error (.InvalidRole m.Role)
  else if m.IsEmpty && !m.IsSystem then .error (.EmptyContent m.Role)
  else .ok ()

/-- A Go run-time panic of a slice expression `s[:hi]`:
`slice bounds out of range [:hi] with length len`. -/
inductive GoPanic where
  | sliceBoundsOutOfRange (hi : Int) (len : Nat)
deriving DecidableEq, Repr

/-- Arithmetic of the Go type `int` (64 bits, two's complement): the value of
`x` wrapped into `[-2^63, 2^63)`. -/
def wrapInt (x : Int) : Int := (x + 2 ^ 63) % 2 ^ 64 - 2 ^ 63

/-- The values of the Go type `int`. -/
def IsGoInt (x : Int) : Prop := -(2 ^ 63) ≤ x ∧ x < 2 ^ 63

instance (x : Int) : Decidable (IsGoInt x) := by unfold IsGoInt; infer_instance

/-- The Go slice expression `s[:hi]` on a string: the first `hi` bytes, and a
panic when `hi` is negative or beyond `len(s)`. -/
def sliceTo (s : GoString) (hi : Int) : Except GoPanic GoString :=
  if 0 ≤ hi ∧ hi ≤ (s.length : Int) then .ok (s.take hi.toNat)
  else .error (.sliceBoundsOutOfRange hi s.length)

/-- Go `func (m Message) Truncate(maxLen int) Message`.  `len(m.Content)` is
the number of bytes, `maxLen-3` is `int` arithmetic, and the slice expression
`m.Content[:maxLen-3]` panics when its bound is out of range. -/
def Message.Truncate (m : Message) (maxLen : Int) : Except GoPanic Message :=
  if (m.Content.length : Int) ≤ maxLen then .ok m
  else
    match sliceTo m.Content (wrapInt (maxLen - 3)) with
    | .error p => .error p
    | .ok pre => .ok { Role := m.Role, Content := pre ++ str "..." }

/-- The strings in which every rune is white space for `unicode.IsSpace`, the
empty string among them: the concatenations of encodings of white-space
runes. -/
inductive AllSpace : GoString → Prop where
  | nil : AllSpace []
  | cons (w s : GoString) : w ∈ spaceRunes → AllSpace s → AllSpace (w ++ s)

/-! ## `strings.Fields` and `Message.WordCount` -/

/-- The field being read, as a list of fields: none when no byte of a field has
been read yet. -/
def flushField (cur : GoString) : List GoString := if cur = [] then [] else [cur]

/-- The scan of `strings.Fields`, with `cur` the bytes of the field being read:
a white-space rune ends the field, any other byte extends it.  (A rune that is
not white space never has, past its first byte, a byte that starts the encoding
of a white-space rune, so reading it byte by byte finds the same fields.) -/
def fieldsFuel : Nat → GoString → GoString → List GoString
  | 0, _, cur => flushField cur
  | _ + 1, [], cur => flushField cur
  | fuel + 1, b :: rest, cur =>
    if leadingSpace (b :: rest) = 0 then fieldsFuel fuel rest (cur ++ [b])
    else flushField cur ++
      fieldsFuel fuel ((b :: rest).drop (leadingSpace (b :: rest))) []

/-- Go `strings.Fields(s)`: `s` split around each run of one or more white-space
runes (`unicode.IsSpace`); no field is empty.  Every step of the scan reads at
least one byte, so `len(s)` steps are enough. -/
def Fields (s : GoString) : List GoString := fieldsFuel s.length s []

/-- Go `func (m Message) WordCount() int`. -/
def Message.WordCount (m : Message) : Int :=
  if m.IsEmpty then 0 else ((Fields m.Content).length : Int)

/-- The maximal runs of non-white-space of a string, in order: `Runs s fs` holds
when `s` is made of white-space runes and of the non-empty strings `fs`, where
no white-space rune starts at any byte of a member of `fs`, and each member is
followed by a white-space rune or by the end of `s` (so that it cannot be
extended, and two members are never adjacent). -/
inductive Runs : GoString → List GoString → Prop where
  | nil : Runs [] []
  | space (w s : GoString) (fs : List GoString) :
      w ∈ spaceRunes → Runs s fs → Runs (w ++ s) fs
  | word (f s : GoString) (fs : List GoString) :
      f ≠ [] → (∀ a b : GoString, f = a ++ b → b ≠ [] → leadingSpace (b ++ s) = 0) →
      (s = [] ∨ leadingSpace s ≠ 0) → Runs s fs → Runs (f ++ s) (f :: fs)

/-! ## Go errors, contexts, `strings.Contains`, `strings.ToLower` -/

/-- The values of the Go type `error` that the program makes or passes on:
`fmt.Errorf` without `%w` (the formatted message), `fmt.Errorf` with a final
`%w` (the text before it, and the wrapped error), the
`"API returned status %d: %s"` error of `makeRequest`, and the two errors of
the package `context`. -/
inductive GoError where
  | errorf (msg : GoString)
  | wrapf (msg : GoString) (inner : GoError)
  | apiStatus (code : Int) (body : GoString)
  | canceled
  | deadlineExceeded
deriving DecidableEq, Repr

/-- A `context.Context` as the callee sees it at one moment: whether a receive
from `ctx.Done()` can proceed, and what `ctx.Err()` returns. -/
structure Context where
  /-- Whether the channel `ctx.Done()` is closed. -/
  Done : Bool
  /-- The value of `ctx.Err()`, `none` for `nil`. -/
  Err : Option GoError
deriving DecidableEq, Repr

/-- Go `context.Background()`: never done, `Err()` is `nil`. -/
def Context.Background : Context := { Done := false, Err := none }

/-- Go `strings.Contains(s, substr)`: `substr` occurs in `s` as a run of
consecutive bytes. -/
def Contains : GoString → GoString → Bool
  | [], substr => substr.isPrefixOf []
  | c :: s, substr => substr.isPrefixOf (c :: s) || Contains s substr

/-- The lower-case mapping on one byte of ASCII: `'A'..'Z'` to `'a'..'z'`, any
other byte to itself. -/
def asciiLower (b : UInt8) : UInt8 :=
  if 0x41 ≤ b.toNat ∧ b.toNat ≤ 0x5A then b + 0x20 else b

/-- What `ToLower` gives for the run `pend` of bytes outside ASCII read so
far. -/
def lowerFlush (lowerRunes : GoString → GoString) (pend : GoString) : GoString :=
  if pend = [] then [] else lowerRunes pend

/-- The scan of `ToLower`: a byte of ASCII is mapped by itself; a maximal run of
bytes outside ASCII is collected in `pend` and mapped as a whole. -/
def toLowerAux (lowerRunes : GoString → GoString) : GoString → GoString → GoString
  | [], pend => lowerFlush lowerRunes pend
  | b :: rest, pend =>
    if b.toNat < 0x80 then
      lowerFlush lowerRunes pend ++ asciiLower b :: toLowerAux lowerRunes rest []
    else toLowerAux lowerRunes rest (pend ++ [b])

/-- Go `strings.ToLower(s)`: every rune of `s` mapped by `unicode.ToLower`, a
byte that is no valid UTF-8 replaced by U+FFFD.  A rune of more than one byte,
and an invalid byte, consist of bytes outside ASCII only, so the result is made
piece by piece: each ASCII byte in lower case, and each maximal run of bytes
outside ASCII mapped by `lowerRunes`, the parameter that stands for the
Unicode tables of the Go library on such runs. -/
def ToLower (lowerRunes : GoString → GoString) (s : GoString) : GoString :=
  toLowerAux lowerRunes s []

/-! ## models/mock.go -/

/-- Go `type MockModel struct { name string }`. -/
structure MockModel where
  /-- The name `Name()` returns. -/
  name : GoString
deriving DecidableEq, Repr

/-- Go `NewMockModel()`. -/
def NewMockModel : MockModel := { name := str "mock-model" }

/-- The loop `for i := len(messages) - 1; i >= 0; i--` of `MockModel.Generate`:
the content of the last message with the role `user`, `""` when there is
none. -/
def lastUserMessage (messages : List Message) : GoString :=
  match messages.reverse.find? (fun m => decide (m.Role = RoleUser)) with
  | some m => m.Content
  | none => []

/-- Go `func (m *MockModel) Generate(ctx context.Context, messages
[]types.Message) (string, error)`: the `select` on `ctx.Done()`, the check of
the length, the search of the last user message, and the `switch` over the
keywords in lower case, in the order of the source.  The last case is
`fmt.Sprintf` with the one verb `%s`. -/
def MockModel.Generate (lowerRunes : GoString → GoString) (_m : MockModel) (ctx : Context)
    (messages : List Message) : GoString × Option GoError :=
  if ctx.Done then (str "", ctx.Err)
  else if messages.length = 0 then (str "", some (.errorf (str "no messages provided")))
  else
    let userMessage := lastUserMessage messages
    if userMessage = [] then (str "I didn't receive any user input.", none)
    else
      let userLower := ToLower lowerRunes userMessage
      if Contains userLower (str "hello") || Contains userLower (str "hi") then
        (str "Hello! How can I help you today?", none)
      else if Contains userLower (str "weather") then
        (str "I'd love to help with weather information, but I don't have access to weather data yet.", none)
      else if Contains userLower (str "time") then
        (str "I don't have access to the current time, but I can help with other questions!", none)
      else if Contains userLower (str "math") || Contains userLower (str "calculate") then
        (str "I can help with math! Try asking me specific calculations like '2 + 2'.", none)
      else if Contains userLower (str "2 + 2") || Contains userLower (str "2+2") then
        (str "2 + 2 = 4", none)
      else if Contains userLower (str "go") && Contains userLower (str "programming") then
        (str "Go is a fantastic programming language! It's simple, fast, and has great concurrency support.", none)
      else if Contains userLower (str "thank") then
        (str "You're welcome! Happy to help.", none)
      else if Contains userLower (str "bye") || Contains userLower (str "goodbye") then
        (str "Goodbye! Have a great day!", none)
      else
        (str "I understand you said: \"" ++ userMessage ++
          str "\". I'm a simple mock model, so my responses are limited, but I'm here to help!",
         none)

/-- Go `func (m *MockModel) Name() string`. -/
def MockModel.Name (m : MockModel) : GoString := m.name

/-- Go `func (m *MockModel) SetName(name string)`. -/
def MockModel.SetName (_m : MockModel) (name : GoString) : MockModel := { name := name }

/-! ## models/model.go and agent.go -/

/-- Go `type Model interface { Generate(...) (string, error); Name() string }`:
a backend whose state is of type `σ`; `Generate` may change that state. -/
structure Model (σ : Type) where
  /-- The method `Generate`. -/
  Generate : Context → List Message → σ → (GoString × Option GoError) × σ
  /-- The method `Name`. -/
  Name : σ → GoString

/-- A `*MockModel` as a `Model`: its state is the struct, and `Generate` leaves
it as it is. -/
def MockModel.toModel (lowerRunes : GoString → GoString) : Model MockModel :=
  { Generate := fun ctx messages m => (MockModel.Generate lowerRunes m ctx messages, m),
    Name := MockModel.Name }

/-- Go `type Agent struct { SystemPrompt string; Model models.Model }`; the
`nil` interface is `none`. -/
structure Agent (σ : Type) where
  /-- The system prompt. -/
  SystemPrompt : GoString
  /-- The backend. -/
  Model : Option (GoAgent.Model σ)

/-- Go `NewAgent(systemPrompt, model)`. -/
def NewAgent {σ : Type} (systemPrompt : GoString) (model : Option (Model σ)) : Agent σ :=
  { SystemPrompt := systemPrompt, Model := model }

/-- Go `func (a *Agent) buildMessages(userInput string) []types.Message`. -/
def Agent.buildMessages {σ : Type} (a : Agent σ) (userInput : GoString) : List Message :=
  (if a.SystemPrompt ≠ [] then [{ Role := RoleSystem, Content := a.SystemPrompt }] else []) ++
    [{ Role := RoleUser, Content := userInput }]

/-- What a call of `Run` leaves: the two values returned, the agent behind the
receiver, and the state of the backend. -/
structure RunOutcome (σ : Type) where
  /-- The string returned. -/
  text : GoString
  /-- The error returned, `none` for `nil`. -/
  err : Option GoError
  /-- The agent after the call. -/
  agent : Agent σ
  /-- The state of the backend after the call. -/
  backend : σ

/-- Go `func (a *Agent) Run(ctx context.Context, userInput string) (string,
error)`, called with the backend in the state `s`. -/
def Agent.Run {σ : Type} (a : Agent σ) (ctx : Context) (userInput : GoString) (s : σ) :
    RunOutcome σ :=
  match a.Model with
  | none =>
    { text := str "", err := some (.errorf (str "agent has no model")), agent := a, backend := s }
  | some model =>
    if userInput = [] then
      { text := str "", err := some (.errorf (str "user input cannot be empty")),
        agent := a, backend := s }
    else
      let r := model.Generate ctx (a.buildMessages userInput) s
      { text := r.1.1, err := r.1.2, agent := a, backend := r.2 }

/-- Go `func (a *Agent) GetModelName() string`. -/
def Agent.GetModelName {σ : Type} (a : Agent σ) (s : σ) : GoString :=
  match a.Model with
  | none => str "none"
  | some model => model.Name s

/-- Go `func (a *Agent) SetSystemPrompt(prompt string)`. -/
def Agent.SetSystemPrompt {σ : Type} (a : Agent σ) (prompt : GoString) : Agent σ :=
  { a with SystemPrompt := prompt }

/-- Go `func (a *Agent) SetModel(model models.Model)`. -/
def Agent.SetModel {σ : Type} (a : Agent σ) (model : Option (GoAgent.Model σ)) : Agent σ :=
  { a with Model := model }

/-- A backend that records the message list of every call of `Generate`, and
answers `"ok"`. -/
def recordingModel : Model (List (List Message)) :=
  { Generate := fun _ messages log => ((str "ok", none), log ++ [messages]),
    Name := fun _ => str "recording" }

/-! ## models/gemini.go: the request and the response -/

/-- Go `type GenerationConfig struct`; the two `float64` fields hold the decimal
literals of the source. -/
structure GenerationConfig where
  /-- The field `Temperature`. -/
  Temperature : Rat
  /-- The field `TopK`. -/
  TopK : Int
  /-- The field `TopP`. -/
  TopP : Rat
  /-- The field `MaxOutputTokens`. -/
  MaxOutputTokens : Int
deriving DecidableEq, Repr

/-- Go `type GeminiRequest struct`. -/
structure GeminiRequest where
  /-- The translated messages. -/
  Contents : List GeminiMessage
  /-- The generation parameters. -/
  GenerationConfig : GoAgent.GenerationConfig
deriving DecidableEq, Repr

/-- Go `type GeminiContent struct { Parts []GeminiPart }`. -/
structure GeminiContent where
  /-- The parts of the content. -/
  Parts : List GeminiPart
deriving DecidableEq, Repr

/-- Go `type GeminiCandidate struct { Content GeminiContent }`. -/
structure GeminiCandidate where
  /-- The content of the candidate. -/
  Content : GeminiContent
deriving DecidableEq, Repr

/-- Go `type GeminiResponse struct { Candidates []GeminiCandidate }`. -/
structure GeminiResponse where
  /-- The candidates of the response. -/
  Candidates : List GeminiCandidate
deriving DecidableEq, Repr

/-- Go `type GeminiModel struct`, without the HTTP client, whose work is in
`Http`. -/
structure GeminiModel where
  /-- The field `apiKey`. -/
  apiKey : GoString
  /-- The field `modelName`. -/
  modelName : GoString
  /-- The field `baseURL`. -/
  baseURL : GoString
deriving DecidableEq, Repr

/-- What `g.httpClient.Do(req)` returns when it succeeds: the status code, and
the result of `io.ReadAll(resp.Body)`. -/
structure HttpResponse where
  /-- The field `StatusCode`. -/
  StatusCode : Int
  /-- The body read, or the error of reading it. -/
  Body : Except GoError GoString

/-- The library calls of `makeRequest`, as functions of what they are given:
`json.Marshal`, `http.NewRequestWithContext` (its error, `none` for `nil`),
`httpClient.Do` with the URL and the body of the request, and
`json.Unmarshal` into a `GeminiResponse`. -/
structure Http where
  /-- Go `json.Marshal(payload)`. -/
  Marshal : GeminiRequest → Except GoError GoString
  /-- Go `http.NewRequestWithContext(ctx, "POST", url, body)`. -/
  NewRequest : Context → GoString → GoString → Option GoError
  /-- Go `g.httpClient.Do(req)`. -/
  Do : Context → GoString → GoString → Except GoError HttpResponse
  /-- Go `json.Unmarshal(body, &geminiResponse)`. -/
  Unmarshal : GoString → Except GoError GeminiResponse

/-- Go `func (g *GeminiModel) makeRequest(ctx, payload) (*GeminiResponse,
error)`; `http.StatusOK` is 200. -/
def GeminiModel.makeRequest (net : Http) (g : GeminiModel) (ctx : Context)
    (payload : GeminiRequest) : Except GoError GeminiResponse :=
  match net.Marshal payload with
  | .error e => .error (.wrapf (str "failed to marshal request: ") e)
  | .ok jsonData =>
    let url := g.baseURL ++ str "/models/" ++ g.modelName ++ str ":generateContent?key=" ++
      g.apiKey
    match net.NewRequest ctx url jsonData with
    | some e => .error (.wrapf (str "failed to create request: ") e)
    | none =>
      match net.Do ctx url jsonData with
      | .error e => .error (.wrapf (str "HTTP request failed: ") e)
      | .ok resp =>
        match resp.Body with
        | .error e => .error (.wrapf (str "failed to read response: ") e)
        | .ok body =>
          if resp.StatusCode ≠ 200 then .error (.apiStatus resp.StatusCode body)
          else
            match net.Unmarshal body with
            | .error e => .error (.wrapf (str "failed to parse response: ") e)
            | .ok geminiResponse => .ok geminiResponse

/-- The error value of a failure of `convertMessages`. -/
def ConvertError.toGoError : ConvertError → GoError
  | .NoValidMessages => .errorf (str "no valid messages to send")

/-- The payload `Generate` builds from the translated messages. -/
def GeminiModel.payload (geminiMessages : List GeminiMessage) : GeminiRequest :=
  { Contents := geminiMessages,
    GenerationConfig :=
      { Temperature := 0.7, TopK := 40, TopP := 0.95, MaxOutputTokens := 2048 } }

/-- Go `func (g *GeminiModel) Generate(ctx context.Context, messages
[]types.Message) (string, error)`.  The two checks `len(...) == 0` and the two
indexings `[0]` are the two matches on the lists. -/
def GeminiModel.Generate (net : Http) (g : GeminiModel) (ctx : Context)
    (messages : List Message) : GoString × Option GoError :=
  match GeminiModel.convertMessages messages with
  | .error e => (str "", some (.wrapf (str "failed to convert messages: ") e.toGoError))
  | .ok geminiMessages =>
    match g.makeRequest net ctx (GeminiModel.payload geminiMessages) with
    | .error e => (str "", some (.wrapf (str "API request failed: ") e))
    | .ok response =>
      match response.Candidates with
      | [] => (str "", some (.errorf (str "no response candidates returned")))
      | candidate :: _ =>
        match candidate.Content.Parts with
        | [] => (str "", some (.errorf (str "no response parts returned")))
        | part :: _ => (part.Text, none)

/-- Go `func (g *GeminiModel) Name() string`. -/
def GeminiModel.Name (g : GeminiModel) : GoString := g.modelName

/-- A network that answers every request with the status 200 and a body that
decodes to `response`. -/
def fixedHttp (response : GeminiResponse) : Http :=
  { Marshal := fun _ => .ok (str "{}"),
    NewRequest := fun _ _ _ => none,
    Do := fun _ _ _ => .ok { StatusCode := 200, Body := .ok (str "{}") },
    Unmarshal := fun _ => .ok response }
/-! ## Facts about the role constants and `Join` -/

theorem roleUser_ne_roleSystem : RoleUser ≠ RoleSystem := by decide

theorem roleAssistant_ne_roleSystem : RoleAssistant ≠ RoleSystem := by decide

theorem roleAssistant_ne_roleUser : RoleAssistant ≠ RoleUser := by decide

/-- For a non-empty list, `Join` followed by the separator and a last string
is the right-nested concatenation `s1 ++ sep ++ (... ++ (sn ++ sep ++ u))`. -/
theorem Join_append_sep (sep u : GoString) :
    ∀ ss : List GoString, ss ≠ [] →
      Join ss sep ++ sep ++ u = ss.foldr (fun s acc => s ++ sep ++ acc) u
  | [], h => absurd rfl h
  | [a], _ => by simp [Join]
  | a :: b :: rest, _ => by
    have ih := Join_append_sep sep u (b :: rest) (List.cons_ne_nil _ _)
    simp only [Join, List.foldr_cons, List.append_assoc] at ih ⊢
    rw [ih]

/-! ## The loop of `convertMessages` -/

theorem convertStep_system (st : ConvertState) (m : Message) (h : m.Role = RoleSystem) :
    GeminiModel.convertStep st m =
      { st with systemInstructions := st.systemInstructions ++ [m.Content] } := by
  simp [GeminiModel.convertStep, h]

theorem convertStep_user_pending (st : ConvertState) (m : Message) (h : m.Role = RoleUser)
    (hp : st.systemInstructions ≠ []) :
    GeminiModel.convertStep st m =
      { geminiMessages := st.geminiMessages ++
          [{ Role := str "user",
             Parts := [{ Text := Join st.systemInstructions blankLine ++ blankLine
                                   ++ m.Content }] }],
        systemInstructions := [] } := by
  have hlen : st.systemInstructions.length > 0 := List.length_pos.mpr hp
  simp [GeminiModel.convertStep, h, roleUser_ne_roleSystem, hlen]

theorem convertStep_user_plain (st : ConvertState) (m : Message) (h : m.Role = RoleUser)
    (hp : st.systemInstructions = []) :
    GeminiModel.convertStep st m =
      { st with geminiMessages := st.geminiMessages ++
          [{ Role := str "user", Parts := [{ Text := m.Content }] }] } := by
  simp [GeminiModel.convertStep, h, roleUser_ne_roleSystem, hp]

theorem convertStep_assistant (st : ConvertState) (m : Message) (h : m.Role = RoleAssistant) :
    GeminiModel.convertStep st m =
      { st with geminiMessages := st.geminiMessages ++
          [{ Role := str "model", Parts := [{ Text := m.Content }] }] } := by
  simp [GeminiModel.convertStep, h, roleAssistant_ne_roleSystem, roleAssistant_ne_roleUser]

theorem convertStep_other (st : ConvertState) (m : Message) (hs : m.Role ≠ RoleSystem)
    (hu : m.Role ≠ RoleUser) (ha : m.Role ≠ RoleAssistant) :
    GeminiModel.convertStep st m = st := by
  simp [GeminiModel.convertStep, hs, hu, ha]

/-- A run of system messages only extends the pending instruction buffer. -/
theorem foldl_convertStep_system :
    ∀ (t : List Message) (st : ConvertState), (∀ m ∈ t, m.Role = RoleSystem) →
      t.foldl GeminiModel.convertStep st =
        { st with systemInstructions := st.systemInstructions ++ t.map (fun m => m.Content) }
  | [], st, _ => by simp
  | m :: t, st, h => by
    have hm : m.Role = RoleSystem := h m (List.mem_cons_self _ _)
    have ht : ∀ x ∈ t, x.Role = RoleSystem := fun x hx => h x (List.mem_cons_of_mem _ hx)
    rw [List.foldl_cons, convertStep_system st m hm, foldl_convertStep_system t _ ht]
    simp

/-- The loop appends to `geminiMessages` one vendor message per user or
assistant message, in order. -/
theorem foldl_convertStep_spec :
    ∀ (ms : List Message) (st : ConvertState),
      ∃ out, (ms.foldl GeminiModel.convertStep st).geminiMessages = st.geminiMessages ++ out ∧
        List.Forall₂ Translates (ms.filter isTurn) out
  | [], st => ⟨[], by simp, by simp⟩
  | m :: ms, st => by
    rw [List.foldl_cons]
    by_cases hs : m.Role = RoleSystem
    · obtain ⟨out, h1, h2⟩ := foldl_convertStep_spec ms (GeminiModel.convertStep st m)
      refine ⟨out, ?_, ?_⟩
      · rw [h1, convertStep_system st m hs]
      · have : isTurn m = false := by
          simp [isTurn, hs, Ne.symm roleUser_ne_roleSystem, Ne.symm roleAssistant_ne_roleSystem]
        simpa [List.filter_cons, this] using h2
    · by_cases hu : m.Role = RoleUser
      · obtain ⟨out, h1, h2⟩ := foldl_convertStep_spec ms (GeminiModel.convertStep st m)
        have ht : isTurn m = true := by simp [isTurn, hu]
        by_cases hp : st.systemInstructions = []
        · refine ⟨{ Role := str "user", Parts := [{ Text := m.Content }] } :: out, ?_, ?_⟩
          · rw [h1, convertStep_user_plain st m hu hp]; simp
          · rw [List.filter_cons, if_pos ht]
            exact List.Forall₂.cons (Or.inr ⟨hu, rfl, [], rfl⟩) h2
        · refine ⟨{ Role := str "user",
                      Parts := [{ Text := Join st.systemInstructions blankLine ++ blankLine
                                            ++ m.Content }] } :: out, ?_, ?_⟩
          · rw [h1, convertStep_user_pending st m hu hp]; simp
          · rw [List.filter_cons, if_pos ht]
            exact List.Forall₂.cons (Or.inr ⟨hu, rfl, _, rfl⟩) h2
      · by_cases ha : m.Role = RoleAssistant
        · obtain ⟨out, h1, h2⟩ := foldl_convertStep_spec ms (GeminiModel.convertStep st m)
          have ht : isTurn m = true := by simp [isTurn, ha]
          refine ⟨{ Role := str "model", Parts := [{ Text := m.Content }] } :: out, ?_, ?_⟩
          · rw [h1, convertStep_assistant st m ha]; simp
          · rw [List.filter_cons, if_pos ht]
            exact List.Forall₂.cons (Or.inl ⟨ha, rfl⟩) h2
        · obtain ⟨out, h1, h2⟩ := foldl_convertStep_spec ms (GeminiModel.convertStep st m)
          refine ⟨out, ?_, ?_⟩
          · rw [h1, convertStep_other st m hs hu ha]
          · have : isTurn m = false := by simp [isTurn, hu, ha]
            simpa [List.filter_cons, this] using h2

/-- The vendor messages of the whole loop. -/
theorem convertLoop_spec (ms : List Message) :
    List.Forall₂ Translates (ms.filter isTurn) (GeminiModel.convertLoop ms).geminiMessages := by
  obtain ⟨out, h1, h2⟩ := foldl_convertStep_spec ms { geminiMessages := [], systemInstructions := [] }
  simp only [List.nil_append] at h1
  unfold GeminiModel.convertLoop
  rw [h1]
  exact h2

/-- The result of `convertMessages` in terms of the loop. -/
theorem convertMessages_eq (ms : List Message) :
    GeminiModel.convertMessages ms =
      if (GeminiModel.convertLoop ms).geminiMessages = [] then .error .NoValidMessages
      else .ok (GeminiModel.convertLoop ms).geminiMessages := by
  simp [GeminiModel.convertMessages, List.length_eq_zero]

/-- No vendor message comes out of the loop exactly when the input has no user
and no assistant message. -/
theorem convertLoop_nil_iff (ms : List Message) :
    (GeminiModel.convertLoop ms).geminiMessages = [] ↔
      ∀ m ∈ ms, m.Role ≠ RoleUser ∧ m.Role ≠ RoleAssistant := by
  have hlen := (convertLoop_spec ms).length_eq
  rw [← List.length_eq_zero, ← hlen, List.length_eq_zero, List.filter_eq_nil_iff]
  constructor
  · intro h m hm
    have := h m hm
    simpa [isTurn, not_or] using this
  · intro h m hm
    have := h m hm
    simpa [isTurn, not_or] using this

/-! ## The claims on `convertMessages` -/

/-- C1: a non-empty run of system-role messages followed by one user-role message
translates, with success, to exactly one vendor message, whose role tag is
`"user"` and whose single text part is
`s1 ++ "\n\n" ++ ... ++ sn ++ "\n\n" ++ u`. -/
theorem convertMessages_system_run_then_user (sys : List Message) (um : Message)
    (hsys : ∀ m ∈ sys, m.Role = RoleSystem) (hne : sys ≠ []) (hu : um.Role = RoleUser) :
    GeminiModel.convertMessages (sys ++ [um]) =
      .ok [{ Role := str "user",
             Parts := [{ Text := (sys.map (fun m => m.Content)).foldr
                                   (fun s acc => s ++ str "\n\n" ++ acc) um.Content }] }] := by
  have hmap : sys.map (fun m => m.Content) ≠ [] := by simpa using hne
  have hloop : GeminiModel.convertLoop (sys ++ [um]) =
      { geminiMessages :=
          [{ Role := str "user",
             Parts := [{ Text := Join (sys.map (fun m => m.Content)) blankLine ++ blankLine
                                   ++ um.Content }] }],
        systemInstructions := [] } := by
    unfold GeminiModel.convertLoop
    rw [List.foldl_append, foldl_convertStep_system sys _ hsys, List.foldl_cons, List.foldl_nil,
      convertStep_user_pending _ um hu (by simpa using hne)]
    simp
  rw [convertMessages_eq, hloop, Join_append_sep blankLine um.Content _ hmap]
  simp [blankLine]

/-- C1 at the input of the specification: `[system "A", system "B", user "hi"]`
gives the one user-role vendor message with text `"A\n\nB\n\nhi"`. -/
theorem convertMessages_system_run_then_user_witness :
    (∀ m ∈ [NewSystemMessage (str "A"), NewSystemMessage (str "B")], m.Role = RoleSystem) ∧
    [NewSystemMessage (str "A"), NewSystemMessage (str "B")] ≠ [] ∧
    (NewUserMessage (str "hi")).Role = RoleUser ∧
    GeminiModel.convertMessages
        [NewSystemMessage (str "A"), NewSystemMessage (str "B"), NewUserMessage (str "hi")] =
      .ok [{ Role := str "user", Parts := [{ Text := str "A\n\nB\n\nhi" }] }] :=
  ⟨by decide, by decide, rfl,
    convertMessages_system_run_then_user
      [NewSystemMessage (str "A"), NewSystemMessage (str "B")] (NewUserMessage (str "hi"))
      (by decide) (by decide) rfl⟩

/-- C2, as the specification states it, fails: on
`[user "x", system "ignored", user "y"]` the translation does not give two
vendor messages of which the second has the text `"y"`. -/
theorem convertMessages_second_text_not_y :
    ¬ ∃ g1 g2 : GeminiMessage,
        GeminiModel.convertMessages
            [NewUserMessage (str "x"), NewSystemMessage (str "ignored"),
             NewUserMessage (str "y")] = .ok [g1, g2] ∧
        g2.Parts = [{ Text := str "y" }] := by
  rintro ⟨g1, g2, h, h2⟩
  have e : GeminiModel.convertMessages
      [NewUserMessage (str "x"), NewSystemMessage (str "ignored"), NewUserMessage (str "y")] =
      .ok [{ Role := str "user", Parts := [{ Text := str "x" }] },
           { Role := str "user", Parts := [{ Text := str "ignored\n\ny" }] }] := rfl
  rw [e] at h
  injection h with h
  injection h with _ h
  injection h with h _
  subst h
  revert h2
  decide

/-- C2, amended: on `[user "x", system "ignored", user "y"]` the translation
gives exactly two vendor messages, both with role tag `"user"`; the first has
the text `"x"` and the second the text `"ignored\n\ny"`: the system message
between the two user messages is attached to the user message after it. -/
theorem convertMessages_system_between_users :
    GeminiModel.convertMessages
        [NewUserMessage (str "x"), NewSystemMessage (str "ignored"),
         NewUserMessage (str "y")] =
      .ok [{ Role := str "user", Parts := [{ Text := str "x" }] },
           { Role := str "user", Parts := [{ Text := str "ignored\n\ny" }] }] := rfl

/-- C3: system-role messages at the end of the input are dropped: for every
message list `ms` and every list `t` of system-role messages, translating
`ms ++ t` gives the same vendor messages, or the same failure, as translating
`ms`. -/
theorem convertMessages_drops_trailing_system (ms t : List Message)
    (ht : ∀ m ∈ t, m.Role = RoleSystem) :
    GeminiModel.convertMessages (ms ++ t) = GeminiModel.convertMessages ms := by
  have h : (GeminiModel.convertLoop (ms ++ t)).geminiMessages =
      (GeminiModel.convertLoop ms).geminiMessages := by
    unfold GeminiModel.convertLoop
    rw [List.foldl_append, foldl_convertStep_system t _ ht]
  rw [convertMessages_eq, convertMessages_eq, h]

/-- C3 at a concrete input: two system messages after `[system "S", user "x"]`
leave the translation as it is, the one vendor message with text `"S\n\nx"`. -/
theorem convertMessages_drops_trailing_system_witness :
    (∀ m ∈ [NewSystemMessage (str "late"), NewSystemMessage (str "later")],
        m.Role = RoleSystem) ∧
    GeminiModel.convertMessages
        ([NewSystemMessage (str "S"), NewUserMessage (str "x")] ++
         [NewSystemMessage (str "late"), NewSystemMessage (str "later")]) =
      GeminiModel.convertMessages [NewSystemMessage (str "S"), NewUserMessage (str "x")] ∧
    GeminiModel.convertMessages [NewSystemMessage (str "S"), NewUserMessage (str "x")] =
      .ok [{ Role := str "user", Parts := [{ Text := str "S\n\nx" }] }] :=
  ⟨by decide,
    convertMessages_drops_trailing_system
      [NewSystemMessage (str "S"), NewUserMessage (str "x")]
      [NewSystemMessage (str "late"), NewSystemMessage (str "later")] (by decide),
    rfl⟩

/-- C4: `convertMessages` fails, with its `NoValidMessages` error, exactly when
the input has no user-role and no assistant-role message; on every other input
it succeeds and the vendor message list is not empty. -/
theorem convertMessages_error_iff (ms : List Message) :
    (GeminiModel.convertMessages ms = .error .NoValidMessages ↔
      ∀ m ∈ ms, m.Role ≠ RoleUser ∧ m.Role ≠ RoleAssistant) ∧
    ((∃ m ∈ ms, m.Role = RoleUser ∨ m.Role = RoleAssistant) →
      ∃ out, GeminiModel.convertMessages ms = .ok out ∧ out ≠ []) := by
  rw [convertMessages_eq]
  by_cases h : (GeminiModel.convertLoop ms).geminiMessages = []
  · have hall := (convertLoop_nil_iff ms).mp h
    refine ⟨by rw [if_pos h]; exact ⟨fun _ => hall, fun _ => rfl⟩, ?_⟩
    rintro ⟨m, hm, hr⟩
    rcases hr with hr | hr
    · exact absurd hr (hall m hm).1
    · exact absurd hr (hall m hm).2
  · have hall := mt (convertLoop_nil_iff ms).mpr h
    refine ⟨?_, fun _ => ⟨_, by rw [if_neg h], h⟩⟩
    rw [if_neg h]
    constructor
    · intro hc; cases hc
    · intro hc; exact absurd hc hall

/-- C5: when `convertMessages` succeeds, its output has one vendor message per
user-role or assistant-role input message, in input order: an assistant message
gives the role tag `"model"` and the content unchanged, a user message gives the
role tag `"user"` and a text that ends with its content; messages with any other
role give no vendor message, and a message whose role is none of the three can
be removed from the input without changing the result. -/
theorem convertMessages_output_shape (ms : List Message) (out : List GeminiMessage)
    (h : GeminiModel.convertMessages ms = .ok out) :
    List.Forall₂
      (fun m g =>
        (m.Role = RoleAssistant ∧
          g = { Role := str "model", Parts := [{ Text := m.Content }] }) ∨
        (m.Role = RoleUser ∧ g.Role = str "user" ∧
          ∃ pre : GoString, g.Parts = [{ Text := pre ++ m.Content }]))
      (ms.filter (fun m => decide (m.Role = RoleUser ∨ m.Role = RoleAssistant))) out ∧
    ∀ (a b : List Message) (x : Message), ms = a ++ x :: b →
      x.Role ≠ RoleSystem → x.Role ≠ RoleUser → x.Role ≠ RoleAssistant →
      GeminiModel.convertMessages (a ++ b) = .ok out := by
  constructor
  · rw [convertMessages_eq] at h
    split at h
    · cases h
    · injection h with h
      rw [← h]
      exact convertLoop_spec ms
  · intro a b x hms hs hu ha
    rw [← h, hms, convertMessages_eq, convertMessages_eq]
    have hl : GeminiModel.convertLoop (a ++ x :: b) = GeminiModel.convertLoop (a ++ b) := by
      unfold GeminiModel.convertLoop
      rw [List.foldl_append, List.foldl_cons, convertStep_other _ x hs hu ha, List.foldl_append]
    rw [hl]

/-- C5 at a concrete input: `[system "S", user "q", tool "t", assistant "a"]`
gives the user message `"S\n\nq"` and the model message `"a"`, and so does the
input without the message of the unknown role `"tool"`. -/
theorem convertMessages_output_shape_witness :
    GeminiModel.convertMessages
        [NewSystemMessage (str "S"), NewUserMessage (str "q"),
         NewMessage (str "tool") (str "t"), NewAssistantMessage (str "a")] =
      .ok [{ Role := str "user", Parts := [{ Text := str "S\n\nq" }] },
           { Role := str "model", Parts := [{ Text := str "a" }] }] ∧
    GeminiModel.convertMessages
        ([NewSystemMessage (str "S"), NewUserMessage (str "q")] ++
         [NewAssistantMessage (str "a")]) =
      .ok [{ Role := str "user", Parts := [{ Text := str "S\n\nq" }] },
           { Role := str "model", Parts := [{ Text := str "a" }] }] :=
  ⟨rfl,
    (convertMessages_output_shape
      [NewSystemMessage (str "S"), NewUserMessage (str "q"),
       NewMessage (str "tool") (str "t"), NewAssistantMessage (str "a")]
      [{ Role := str "user", Parts := [{ Text := str "S\n\nq" }] },
       { Role := str "model", Parts := [{ Text := str "a" }] }] rfl).2
      [NewSystemMessage (str "S"), NewUserMessage (str "q")] [NewAssistantMessage (str "a")]
      (NewMessage (str "tool") (str "t")) rfl (by decide) (by decide) (by decide)⟩

/-! ## White space -/

/-- The encodings of the white-space runes, byte by byte. -/
theorem spaceRunes_eq :
    spaceRunes =
      [[0x09], [0x0A], [0x0B], [0x0C], [0x0D], [0x20], [0xC2, 0x85], [0xC2, 0xA0],
       [0xE1, 0x9A, 0x80], [0xE2, 0x80, 0x80], [0xE2, 0x80, 0x81], [0xE2, 0x80, 0x82],
       [0xE2, 0x80, 0x83], [0xE2, 0x80, 0x84], [0xE2, 0x80, 0x85], [0xE2, 0x80, 0x86],
       [0xE2, 0x80, 0x87], [0xE2, 0x80, 0x88], [0xE2, 0x80, 0x89], [0xE2, 0x80, 0x8A],
       [0xE2, 0x80, 0xA8], [0xE2, 0x80, 0xA9], [0xE2, 0x80, 0xAF], [0xE2, 0x81, 0x9F],
       [0xE3, 0x80, 0x80]] := by decide

theorem spaceRunes_length_pos : ∀ w ∈ spaceRunes, 0 < w.length := by decide

set_option maxRecDepth 100000 in
theorem spaceRunes_prefix_free :
    ∀ w ∈ spaceRunes, ∀ v ∈ spaceRunes, v.isPrefixOf w = true → v = w := by decide

theorem allSpace_append {a b : GoString} (ha : AllSpace a) (hb : AllSpace b) :
    AllSpace (a ++ b) := by
  induction ha with
  | nil => simpa using hb
  | cons w s hw _ ih =>
    rw [List.append_assoc]
    exact AllSpace.cons w (s ++ b) hw ih

theorem allSpace_of_mem {w : GoString} (hw : w ∈ spaceRunes) : AllSpace w := by
  have := AllSpace.cons w [] hw AllSpace.nil
  simpa using this

/-- A string that starts with the encoding `w` of a white-space rune has that
rune, of that width, as its leading space. -/
theorem leadingSpace_append {w : GoString} (hw : w ∈ spaceRunes) (s : GoString) :
    leadingSpace (w ++ s) = w.length := by
  unfold leadingSpace
  cases hf : spaceRunes.find? (fun v => v.isPrefixOf (w ++ s)) with
  | none =>
    have := List.find?_eq_none.mp hf w hw
    simp at this
  | some v =>
    have hv : v ∈ spaceRunes := List.mem_of_find?_eq_some hf
    have hp : v.isPrefixOf (w ++ s) = true := by
      simpa using List.find?_some hf
    have hvp : v <+: w ++ s := List.isPrefixOf_iff_prefix.mp hp
    have hwp : w <+: w ++ s := List.prefix_append w s
    rcases Nat.le_total v.length w.length with hle | hle
    · have h1 : v <+: w := List.prefix_of_prefix_length_le hvp hwp hle
      have := spaceRunes_prefix_free w hw v hv (List.isPrefixOf_iff_prefix.mpr h1)
      simp [this]
    · have h1 : w <+: v := List.prefix_of_prefix_length_le hwp hvp hle
      have := spaceRunes_prefix_free v hv w hw (List.isPrefixOf_iff_prefix.mpr h1)
      simp [this]

/-- A non-zero leading space is the encoding of a white-space rune in front of
the rest of the string. -/
theorem leadingSpace_pos {s : GoString} (h : leadingSpace s ≠ 0) :
    ∃ w ∈ spaceRunes, s = w ++ s.drop (leadingSpace s) := by
  unfold leadingSpace at h ⊢
  cases hf : spaceRunes.find? (fun v => v.isPrefixOf s) with
  | none => simp [hf] at h
  | some v =>
    have hv : v ∈ spaceRunes := List.mem_of_find?_eq_some hf
    have hp : v.isPrefixOf s = true := by simpa using List.find?_some hf
    obtain ⟨t, ht⟩ := List.isPrefixOf_iff_prefix.mp hp
    refine ⟨v, hv, ?_⟩
    simp only
    rw [← ht]
    simp

/-- A non-zero trailing space is the encoding of a white-space rune behind the
rest of the string. -/
theorem trailingSpace_pos {s : GoString} (h : trailingSpace s ≠ 0) :
    ∃ w ∈ spaceRunes, s = s.take (s.length - trailingSpace s) ++ w := by
  unfold trailingSpace at h ⊢
  cases hf : spaceRunes.find? (fun v => v.isSuffixOf s) with
  | none => simp [hf] at h
  | some v =>
    have hv : v ∈ spaceRunes := List.mem_of_find?_eq_some hf
    have hp : v.isSuffixOf s = true := by simpa using List.find?_some hf
    obtain ⟨t, ht⟩ := List.isSuffixOf_iff_suffix.mp hp
    refine ⟨v, hv, ?_⟩
    simp only
    rw [← ht]
    simp

theorem leadingSpace_nil : leadingSpace [] = 0 := by decide

theorem allSpace_of_trimLeftFuel_nil :
    ∀ (n : Nat) (s : GoString), trimLeftFuel n s = [] → AllSpace s
  | 0, s, h => by
    have : s = [] := by simpa [trimLeftFuel] using h
    rw [this]; exact AllSpace.nil
  | n + 1, s, h => by
    unfold trimLeftFuel at h
    by_cases hz : leadingSpace s = 0
    · rw [if_pos hz] at h
      rw [h]; exact AllSpace.nil
    · rw [if_neg hz] at h
      obtain ⟨w, hw, hs⟩ := leadingSpace_pos hz
      rw [hs]
      exact AllSpace.cons w _ hw (allSpace_of_trimLeftFuel_nil n _ h)

theorem trimLeftFuel_of_allSpace {s : GoString} (hs : AllSpace s) :
    ∀ n, s.length ≤ n → trimLeftFuel n s = [] := by
  induction hs with
  | nil =>
    intro n _
    cases n with
    | zero => rfl
    | succ n => simp [trimLeftFuel, leadingSpace_nil]
  | cons w s hw _ ih =>
    intro n hn
    have hpos := spaceRunes_length_pos w hw
    rw [List.length_append] at hn
    cases n with
    | zero => omega
    | succ n =>
      unfold trimLeftFuel
      rw [leadingSpace_append hw s, if_neg (by omega), List.drop_left]
      exact ih n (by omega)

theorem allSpace_of_trimRightFuel_nil :
    ∀ (n : Nat) (s : GoString), trimRightFuel n s = [] → AllSpace s
  | 0, s, h => by
    have : s = [] := by simpa [trimRightFuel] using h
    rw [this]; exact AllSpace.nil
  | n + 1, s, h => by
    unfold trimRightFuel at h
    by_cases hz : trailingSpace s = 0
    · rw [if_pos hz] at h
      rw [h]; exact AllSpace.nil
    · rw [if_neg hz] at h
      obtain ⟨w, hw, hs⟩ := trailingSpace_pos hz
      rw [hs]
      exact allSpace_append (allSpace_of_trimRightFuel_nil n _ h) (allSpace_of_mem hw)

/-- With fuel for every byte, trimming on the left stops at a rune that is not
white space, or at the end of the string. -/
theorem leadingSpace_trimLeftFuel :
    ∀ (n : Nat) (s : GoString), s.length ≤ n → leadingSpace (trimLeftFuel n s) = 0
  | 0, s, h => by
    have : s = [] := List.length_eq_zero.mp (by omega)
    rw [this]; exact leadingSpace_nil
  | n + 1, s, h => by
    unfold trimLeftFuel
    by_cases hz : leadingSpace s = 0
    · rw [if_pos hz]; exact hz
    · rw [if_neg hz]
      apply leadingSpace_trimLeftFuel n
      rw [List.length_drop]
      omega

theorem leadingSpace_of_allSpace {t : GoString} (ht : AllSpace t) (hne : t ≠ []) :
    leadingSpace t ≠ 0 := by
  induction ht with
  | nil => exact absurd rfl hne
  | cons w s hw hs ih =>
    rw [leadingSpace_append hw s]
    have := spaceRunes_length_pos w hw
    omega

/-- The string `TrimSpace` leaves is empty exactly when the string is made of
white-space runes only. -/
theorem TrimSpace_eq_nil_iff (s : GoString) : TrimSpace s = [] ↔ AllSpace s := by
  constructor
  · intro h
    unfold TrimSpace TrimRightSpace at h
    have h1 : AllSpace (TrimLeftSpace s) := allSpace_of_trimRightFuel_nil _ _ h
    have h2 : TrimLeftSpace s = [] := by
      by_contra hne
      exact leadingSpace_of_allSpace h1 hne (leadingSpace_trimLeftFuel _ s (Nat.le_refl _))
    exact allSpace_of_trimLeftFuel_nil _ _ h2
  · intro h
    have h1 : TrimLeftSpace s = [] := trimLeftFuel_of_allSpace h _ (Nat.le_refl _)
    unfold TrimSpace
    rw [h1]
    rfl

theorem IsEmpty_iff (m : Message) : m.IsEmpty = true ↔ AllSpace m.Content := by
  unfold Message.IsEmpty
  rw [decide_eq_true_iff, TrimSpace_eq_nil_iff]

theorem trailingSpace_nil : trailingSpace [] = 0 := by decide

/-- With fuel for every byte, trimming on the right stops at a rune that is not
white space, or at the start of the string. -/
theorem trailingSpace_trimRightFuel :
    ∀ (n : Nat) (s : GoString), s.length ≤ n → trailingSpace (trimRightFuel n s) = 0
  | 0, s, h => by
    have : s = [] := List.length_eq_zero.mp (by omega)
    rw [this]; exact trailingSpace_nil
  | n + 1, s, h => by
    unfold trimRightFuel
    by_cases hz : trailingSpace s = 0
    · rw [if_pos hz]; exact hz
    · rw [if_neg hz]
      apply trailingSpace_trimRightFuel n
      have hpos : 0 < s.length := by
        rcases s with _ | ⟨a, t⟩
        · exact absurd trailingSpace_nil hz
        · simp
      rw [List.length_take]
      omega

/-! ## The claims on `Validate` -/

theorem Role_IsValid_iff (r : Role) :
    Role.IsValid r = true ↔ (r = RoleUser ∨ r = RoleAssistant ∨ r = RoleSystem) := by
  unfold Role.IsValid
  split <;> simp_all

/-- C6: `Validate` succeeds on a message whose role is one of `user`,
`assistant`, `system` and whose content is not blank; on a message whose role is
any other string it fails with the invalid-role error, whatever the content. -/
theorem Validate_roles (m : Message) :
    ((m.Role = RoleUser ∨ m.Role = RoleAssistant ∨ m.Role = RoleSystem) →
      ¬ AllSpace m.Content → m.Validate = .ok ()) ∧
    (m.Role ≠ RoleUser → m.Role ≠ RoleAssistant → m.Role ≠ RoleSystem →
      m.Validate = .error (.InvalidRole m.Role)) := by
  constructor
  · intro hr hc
    have hv : Role.IsValid m.Role = true := (Role_IsValid_iff _).mpr hr
    have he : m.IsEmpty = false := by
      rw [← Bool.not_eq_true, IsEmpty_iff]; exact hc
    simp [Message.Validate, hv, he]
  · intro hu ha hs
    have hv : Role.IsValid m.Role = false := by
      rw [← Bool.not_eq_true, Role_IsValid_iff]
      simp [hu, ha, hs]
    simp [Message.Validate, hv]

/-- C6 at concrete inputs: the role `"User"` and the empty role are rejected
with the invalid-role error, with a content and without one; `user "hi"`
validates. -/
theorem Validate_roles_witness :
    (Message.mk (str "User") (str "hi")).Validate = .error (.InvalidRole (str "User")) ∧
    (Message.mk (str "") (str "")).Validate = .error (.InvalidRole (str "")) ∧
    (Message.mk RoleUser (str "hi")).Validate = .ok () :=
  ⟨(Validate_roles (Message.mk (str "User") (str "hi"))).2
      (by decide) (by decide) (by decide),
   (Validate_roles (Message.mk (str "") (str ""))).2 (by decide) (by decide) (by decide),
   (Validate_roles (Message.mk RoleUser (str "hi"))).1 (Or.inl rfl)
      (fun h => by
        have := (IsEmpty_iff (Message.mk RoleUser (str "hi"))).mpr h
        revert this
        decide)⟩

/-- C7, as stated, fails: the message with the role `"bogus"` and the empty
content has a role that is not `system` and a blank content, and `Validate`
fails on it with the invalid-role error, not with the empty-content error. -/
theorem Validate_blank_unknown_role :
    (Message.mk (str "bogus") (str "")).Role ≠ RoleSystem ∧
    AllSpace (Message.mk (str "bogus") (str "")).Content ∧
    (Message.mk (str "bogus") (str "")).Validate = .error (.InvalidRole (str "bogus")) ∧
    (Message.mk (str "bogus") (str "")).Validate ≠ .error (.EmptyContent (str "bogus")) := by
  refine ⟨by decide, AllSpace.nil, rfl, ?_⟩
  intro h
  have e : (Message.mk (str "bogus") (str "")).Validate =
      .error (.InvalidRole (str "bogus")) := rfl
  rw [e] at h
  injection h with h
  cases h

/-- C7, amended: on a message whose role is `user` or `assistant` and whose
content is empty or made of white space only, `Validate` fails with the
empty-content error; on a system-role message with such a content it
succeeds. -/
theorem Validate_blank (m : Message) (hc : AllSpace m.Content) :
    ((m.Role = RoleUser ∨ m.Role = RoleAssistant) →
      m.Validate = .error (.EmptyContent m.Role)) ∧
    (m.Role = RoleSystem → m.Validate = .ok ()) := by
  have he : m.IsEmpty = true := (IsEmpty_iff m).mpr hc
  constructor
  · intro hr
    have hv : Role.IsValid m.Role = true :=
      (Role_IsValid_iff _).mpr (hr.elim Or.inl (fun h => Or.inr (Or.inl h)))
    have hs : m.IsSystem = false := by
      rcases hr with h | h
      · simp [Message.IsSystem, h, roleUser_ne_roleSystem]
      · simp [Message.IsSystem, h, roleAssistant_ne_roleSystem]
    simp [Message.Validate, hv, he, hs]
  · intro hr
    have hv : Role.IsValid m.Role = true := (Role_IsValid_iff _).mpr (Or.inr (Or.inr hr))
    have hs : m.IsSystem = true := by simp [Message.IsSystem, hr]
    simp [Message.Validate, hv, hs]

/-- C7, amended, at concrete inputs: the content `" \t\n"` followed by a
no-break space is rejected for the role `user` and accepted for the role
`system`. -/
theorem Validate_blank_witness :
    AllSpace (str " \t\n\u00a0") ∧
    (Message.mk RoleUser (str " \t\n\u00a0")).Validate = .error (.EmptyContent RoleUser) ∧
    (Message.mk RoleSystem (str " \t\n\u00a0")).Validate = .ok () :=
  have h : AllSpace (str " \t\n\u00a0") :=
    AllSpace.cons [0x20] _ (by decide) (AllSpace.cons [0x09] _ (by decide)
      (AllSpace.cons [0x0A] _ (by decide) (AllSpace.cons [0xC2, 0xA0] _ (by decide)
        AllSpace.nil)))
  ⟨h, (Validate_blank (Message.mk RoleUser (str " \t\n\u00a0")) h).1 (Or.inl rfl),
    (Validate_blank (Message.mk RoleSystem (str " \t\n\u00a0")) h).2 rfl⟩

/-! ## The claims on `Truncate` -/

theorem wrapInt_of_isGoInt {x : Int} (h : IsGoInt x) : wrapInt x = x := by
  unfold IsGoInt at h
  unfold wrapInt
  omega

theorem length_dots : (str "...").length = 3 := by decide

theorem take_take_append (l d : GoString) (k : Nat) (h : k ≤ l.length) :
    (l.take k ++ d).take k = l.take k := by
  rw [List.take_append_of_le_length (by rw [List.length_take]; omega), List.take_take]
  simp

/-- C8, as stated, fails: with `maxLen = 2` and the four-byte content `"abcd"`,
longer than `maxLen`, `Truncate` returns no message: the slice expression
`m.Content[:maxLen-3]` has the bound `-1` and panics.  And lengths are counted
in bytes: the content `"ééé"`, three characters in six bytes, is cut by
`Truncate(4)` after its first byte. -/
theorem Truncate_maxLen_two_no_result :
    (¬ ∃ r : Message, (Message.mk RoleUser (str "abcd")).Truncate 2 = .ok r) ∧
    ("ééé".length = 3 ∧
      (Message.mk RoleUser (str "ééé")).Truncate 4 =
        .ok (Message.mk RoleUser ([0xC3] ++ str "..."))) := by
  refine ⟨?_, by decide, rfl⟩
  rintro ⟨r, h⟩
  have e : (Message.mk RoleUser (str "abcd")).Truncate 2 =
      .error (.sliceBoundsOutOfRange (-1) 4) := rfl
  rw [e] at h
  cases h

/-- C8, amended: for every message `m` and every `maxLen`, if the content has at
most `maxLen` bytes the result is `m`; otherwise, when `maxLen` is at least 3,
the result has the role of `m` and its content is the first `maxLen - 3` bytes
of the content of `m` followed by `"..."`, so that it has `maxLen` bytes. -/
theorem Truncate_spec (m : Message) (maxLen : Int) (hint : IsGoInt maxLen) :
    ((m.Content.length : Int) ≤ maxLen → m.Truncate maxLen = .ok m) ∧
    (maxLen < (m.Content.length : Int) → 3 ≤ maxLen →
      m.Truncate maxLen =
        .ok { Role := m.Role,
              Content := m.Content.take (maxLen - 3).toNat ++ str "..." } ∧
      ((m.Content.take (maxLen - 3).toNat ++ str "...").length : Int) = maxLen) := by
  constructor
  · intro h
    simp [Message.Truncate, h]
  · intro hlt h3
    have hw : wrapInt (maxLen - 3) = maxLen - 3 := by
      apply wrapInt_of_isGoInt
      unfold IsGoInt at hint ⊢
      omega
    have hb : 0 ≤ maxLen - 3 ∧ maxLen - 3 ≤ (m.Content.length : Int) := by omega
    constructor
    · unfold Message.Truncate sliceTo
      rw [if_neg (by omega), hw, if_pos hb]
    · rw [List.length_append, List.length_take, length_dots]
      omega

/-- C8, amended, at concrete inputs: `"abcdefghij"` truncated to 5 bytes is
`"ab..."`, and truncated to 10 bytes it is itself. -/
theorem Truncate_spec_witness :
    IsGoInt 5 ∧
    (Message.mk RoleUser (str "abcdefghij")).Truncate 5 =
      .ok (Message.mk RoleUser (str "ab...")) ∧
    (Message.mk RoleUser (str "abcdefghij")).Truncate 10 =
      .ok (Message.mk RoleUser (str "abcdefghij")) :=
  ⟨by decide,
   ((Truncate_spec (Message.mk RoleUser (str "abcdefghij")) 5 (by decide)).2
      (by decide) (by decide)).1,
   (Truncate_spec (Message.mk RoleUser (str "abcdefghij")) 10 (by decide)).1 (by decide)⟩

/-- C9: `Truncate` is idempotent: for every message `m` and every `maxLen`,
truncating the result of `m.Truncate(maxLen)` again with the same `maxLen`
gives that result again (and where the first call panics, the expression
`m.Truncate(maxLen).Truncate(maxLen)` panics with it). -/
theorem Truncate_idempotent (m : Message) (maxLen : Int) :
    (m.Truncate maxLen).bind (fun r => r.Truncate maxLen) = m.Truncate maxLen ∧
    ∀ r : Message, m.Truncate maxLen = .ok r → r.Truncate maxLen = .ok r := by
  have key : ∀ r : Message, m.Truncate maxLen = .ok r → r.Truncate maxLen = .ok r := by
    intro r hr
    unfold Message.Truncate at hr
    by_cases hle : (m.Content.length : Int) ≤ maxLen
    · rw [if_pos hle] at hr
      injection hr with hr
      subst hr
      simp [Message.Truncate, hle]
    · rw [if_neg hle] at hr
      unfold sliceTo at hr
      by_cases hb : 0 ≤ wrapInt (maxLen - 3) ∧ wrapInt (maxLen - 3) ≤ (m.Content.length : Int)
      · rw [if_pos hb] at hr
        injection hr with hr
        subst hr
        have hlen : (List.take (wrapInt (maxLen - 3)).toNat m.Content).length =
            (wrapInt (maxLen - 3)).toNat := by
          rw [List.length_take]
          omega
        unfold Message.Truncate
        by_cases hle2 : ((List.take (wrapInt (maxLen - 3)).toNat m.Content ++
            str "...").length : Int) ≤ maxLen
        · rw [if_pos hle2]
        · rw [if_neg hle2]
          unfold sliceTo
          have hb2 : 0 ≤ wrapInt (maxLen - 3) ∧ wrapInt (maxLen - 3) ≤
              ((List.take (wrapInt (maxLen - 3)).toNat m.Content ++ str "...").length : Int) := by
            rw [List.length_append, hlen]
            omega
          rw [if_pos hb2]
          simp only
          rw [take_take_append _ _ _ (by omega)]
      · rw [if_neg hb] at hr
        cases hr
  refine ⟨?_, key⟩
  cases h : m.Truncate maxLen with
  | error p => rfl
  | ok r => exact key r h

/-- C10: for every `maxLen` below 3 and every content longer than `maxLen` (and
of a length a Go string can have), `Truncate` returns no message: the bound
`maxLen-3` of its slice expression is out of range and the call panics. -/
theorem Truncate_small_maxLen_panics (m : Message) (maxLen : Int) (hint : IsGoInt maxLen)
    (h3 : maxLen < 3) (hlt : maxLen < (m.Content.length : Int))
    (hlen : (m.Content.length : Int) < 2 ^ 63 - 3) :
    m.Truncate maxLen =
      .error (.sliceBoundsOutOfRange (wrapInt (maxLen - 3)) m.Content.length) := by
  unfold Message.Truncate sliceTo
  rw [if_neg (by omega)]
  have hb : ¬ (0 ≤ wrapInt (maxLen - 3) ∧ wrapInt (maxLen - 3) ≤ (m.Content.length : Int)) := by
    unfold IsGoInt at hint
    unfold wrapInt
    omega
  rw [if_neg hb]

/-- C10 at concrete inputs: `"hello"` truncated to 2 bytes, to 0 bytes and to
`-1` bytes panics, the slice bound being `-1`, `-3` and `-4`. -/
theorem Truncate_small_maxLen_panics_witness :
    (Message.mk RoleUser (str "hello")).Truncate 2 =
      .error (.sliceBoundsOutOfRange (-1) 5) ∧
    (Message.mk RoleUser (str "hello")).Truncate 0 =
      .error (.sliceBoundsOutOfRange (-3) 5) ∧
    (Message.mk RoleUser (str "hello")).Truncate (-1) =
      .error (.sliceBoundsOutOfRange (-4) 5) :=
  ⟨Truncate_small_maxLen_panics (Message.mk RoleUser (str "hello")) 2
      (by decide) (by decide) (by decide) (by decide),
   Truncate_small_maxLen_panics (Message.mk RoleUser (str "hello")) 0
      (by decide) (by decide) (by decide) (by decide),
   Truncate_small_maxLen_panics (Message.mk RoleUser (str "hello")) (-1)
      (by decide) (by decide) (by decide) (by decide)⟩


/-! ## `Fields` and the maximal runs of non-white-space -/

theorem allSpace_runs {s : GoString} (h : AllSpace s) : Runs s [] := by
  induction h with
  | nil => exact Runs.nil
  | cons w s hw _ ih => exact Runs.space w s [] hw ih

/-- A string has at most one list of maximal runs. -/
theorem runs_unique {s : GoString} {fs : List GoString} (h : Runs s fs) :
    ∀ gs : List GoString, Runs s gs → gs = fs := by
  induction h with
  | nil =>
    intro gs hg
    generalize hs : ([] : GoString) = s0 at hg
    cases hg with
    | nil => rfl
    | space w s gs hw _ =>
      have := spaceRunes_length_pos w hw
      have hl := congrArg List.length hs
      rw [List.length_append] at hl
      simp only [List.length_nil] at hl
      omega
    | word f s gs hf _ _ _ =>
      have hl := congrArg List.length hs
      have : 0 < f.length := List.length_pos.mpr hf
      rw [List.length_append] at hl
      simp only [List.length_nil] at hl
      omega
  | space w s fs hw _ ih =>
    intro gs hg
    generalize hs : w ++ s = s0 at hg
    cases hg with
    | nil =>
      have := spaceRunes_length_pos w hw
      have hl := congrArg List.length hs
      rw [List.length_append] at hl
      simp only [List.length_nil] at hl
      omega
    | space v t gs hv ht =>
      have h1 : leadingSpace (w ++ s) = w.length := leadingSpace_append hw s
      have h2 : leadingSpace (v ++ t) = v.length := leadingSpace_append hv t
      rw [hs, h2] at h1
      have hst : s = t := by
        have := List.append_inj_right hs h1.symm
        exact this
      subst hst
      exact ih gs ht
    | word f t gs hf hno _ _ =>
      have h1 : leadingSpace (w ++ s) = w.length := leadingSpace_append hw s
      have h2 := hno [] f rfl hf
      rw [← hs, h1] at h2
      have := spaceRunes_length_pos w hw
      omega
  | word f s fs hf hno hend _ ih =>
    intro gs hg
    generalize hs : f ++ s = s0 at hg
    cases hg with
    | nil =>
      have hl := congrArg List.length hs
      have : 0 < f.length := List.length_pos.mpr hf
      rw [List.length_append] at hl
      simp only [List.length_nil] at hl
      omega
    | space v t gs hv ht =>
      have h1 : leadingSpace (v ++ t) = v.length := leadingSpace_append hv t
      have h2 := hno [] f rfl hf
      rw [hs, h1] at h2
      have := spaceRunes_length_pos v hv
      omega
    | word g t gs hg0 hgno hgend ht =>
      have hfg : f = g := by
        rcases Nat.lt_trichotomy f.length g.length with hlt | heq | hgt
        · -- `g` is longer: `s` starts inside `g`
          obtain ⟨c, hc⟩ : f <+: g :=
            List.prefix_of_prefix_length_le (List.prefix_append f s)
              (hs ▸ List.prefix_append g t) (Nat.le_of_lt hlt)
          replace hc := hc.symm
          have hcne : c ≠ [] := by
            intro h0; rw [h0] at hc; simp at hc; rw [hc] at hlt; omega
          have hst : s = c ++ t := by
            rw [hc, List.append_assoc] at hs
            exact List.append_cancel_left hs
          have h0 := hgno f c hc hcne
          rw [← hst] at h0
          rcases hend with h | h
          · rw [h] at hst
            have := congrArg List.length hst
            have : 0 < c.length := List.length_pos.mpr hcne
            simp at *
            omega
          · exact absurd h0 h
        · exact List.append_inj_left hs heq
        · obtain ⟨c, hc⟩ : g <+: f :=
            List.prefix_of_prefix_length_le (hs ▸ List.prefix_append g t)
              (List.prefix_append f s) (Nat.le_of_lt hgt)
          replace hc := hc.symm
          have hcne : c ≠ [] := by
            intro h0; rw [h0] at hc; simp at hc; rw [hc] at hgt; omega
          have hst : t = c ++ s := by
            rw [hc, List.append_assoc] at hs
            exact (List.append_cancel_left hs).symm
          have h0 := hno g c hc hcne
          rw [← hst] at h0
          rcases hgend with h | h
          · rw [h] at hst
            have := congrArg List.length hst
            have : 0 < c.length := List.length_pos.mpr hcne
            simp at *
            omega
          · exact absurd h0 h
      subst hfg
      have hst : s = t := List.append_cancel_left hs
      subst hst
      rw [ih gs ht]

/-- The scan of `Fields` reads maximal runs: with fuel for every byte, and no
white-space rune starting in the bytes `cur` read so far of the current field,
the fields found are the maximal runs of `cur ++ s`. -/
theorem fieldsFuel_runs :
    ∀ (n : Nat) (s cur : GoString), s.length ≤ n →
      (∀ a b : GoString, cur = a ++ b → b ≠ [] → leadingSpace (b ++ s) = 0) →
      Runs (cur ++ s) (fieldsFuel n s cur)
  | n, [], cur, _, hp => by
    have hfl : fieldsFuel n [] cur = flushField cur := by cases n <;> rfl
    rw [hfl]
    unfold flushField
    by_cases hc : cur = []
    · rw [if_pos hc, hc]; exact Runs.nil
    · rw [if_neg hc]
      exact Runs.word cur [] [] hc hp (Or.inl rfl) Runs.nil
  | 0, b :: rest, cur, hn, _ => by simp at hn
  | n + 1, b :: rest, cur, hn, hp => by
    have hlen : rest.length ≤ n := by simpa using hn
    unfold fieldsFuel
    by_cases hz : leadingSpace (b :: rest) = 0
    · rw [if_pos hz]
      have hp2 : ∀ a c : GoString, cur ++ [b] = a ++ c → c ≠ [] →
          leadingSpace (c ++ rest) = 0 := by
        intro a c hac hc
        rcases List.eq_nil_or_concat c with h | ⟨c0, x, h⟩
        · exact absurd h hc
        · rw [h, List.concat_eq_append, ← List.append_assoc] at hac
          have hx : x = b := by
            have := List.append_inj_right' hac rfl
            simpa using this.symm
          have hcur : cur = a ++ c0 := List.append_inj_left' hac rfl
          rw [h, List.concat_eq_append, hx, List.append_assoc]
          by_cases hc0 : c0 = []
          · rw [hc0]; simpa using hz
          · simpa using hp a c0 hcur hc0
      have := fieldsFuel_runs n rest (cur ++ [b]) hlen hp2
      simpa [List.append_assoc] using this
    · rw [if_neg hz]
      obtain ⟨w, hw, hs⟩ := leadingSpace_pos hz
      have hdl : ((b :: rest).drop (leadingSpace (b :: rest))).length ≤ n := by
        rw [List.length_drop]
        simp only [List.length_cons] at hn ⊢
        omega
      have h1 := fieldsFuel_runs n ((b :: rest).drop (leadingSpace (b :: rest))) [] hdl
        (fun a c hac hc => by
          have : c = [] := by
            have := congrArg List.length hac
            simp at this
            exact List.length_eq_zero.mp (by omega)
          exact absurd this hc)
      rw [List.nil_append] at h1
      have h2 : Runs (b :: rest)
          (fieldsFuel n ((b :: rest).drop (leadingSpace (b :: rest))) []) := by
        have := Runs.space w _ _ hw h1
        rwa [← hs] at this
      unfold flushField
      by_cases hc : cur = []
      · rw [if_pos hc, hc]; simpa using h2
      · rw [if_neg hc]
        exact Runs.word cur (b :: rest) _ hc hp (Or.inr hz) h2

/-- The fields `strings.Fields` returns are the maximal runs of
non-white-space of its argument. -/
theorem Fields_runs (s : GoString) : Runs s (Fields s) := by
  have := fieldsFuel_runs s.length s [] (Nat.le_refl _)
    (fun a c hac hc => by
      have : c = [] := by
        have := congrArg List.length hac
        simp at this
        exact List.length_eq_zero.mp (by omega)
      exact absurd this hc)
  simpa [Fields] using this

theorem Fields_of_allSpace {s : GoString} (h : AllSpace s) : Fields s = [] :=
  runs_unique (allSpace_runs h) (Fields s) (Fields_runs s)

/-! ## The claim on `WordCount` -/

/-- C11: `WordCount` is the number of maximal runs of non-white-space of the
content (the content has such a list of runs, and only one); it is 0 when the
content is empty or made of white space only, and it is never negative. -/
theorem WordCount_eq_runs (m : Message) :
    (∃ fs : List GoString, Runs m.Content fs) ∧
    (∀ fs : List GoString, Runs m.Content fs → m.WordCount = (fs.length : Int)) ∧
    (AllSpace m.Content → m.WordCount = 0) ∧
    0 ≤ m.WordCount := by
  have hwc : m.WordCount = ((Fields m.Content).length : Int) := by
    unfold Message.WordCount
    by_cases he : m.IsEmpty = true
    · rw [if_pos he, Fields_of_allSpace ((IsEmpty_iff m).mp he)]
      rfl
    · rw [if_neg he]
  refine ⟨⟨_, Fields_runs m.Content⟩, ?_, ?_, ?_⟩
  · intro fs hfs
    rw [hwc, runs_unique hfs (Fields m.Content) (Fields_runs m.Content)]
  · intro h
    rw [hwc, Fields_of_allSpace h]
    rfl
  · rw [hwc]
    exact Int.natCast_nonneg _

/-- C11 at concrete inputs: `"  hello \t big world\n"` has the three runs
`"hello"`, `"big"`, `"world"` and the word count 3; a content of white space
only has the word count 0. -/
theorem WordCount_eq_runs_witness :
    Runs (str "  hello \t big world\n") [str "hello", str "big", str "world"] ∧
    (Message.mk RoleUser (str "  hello \t big world\n")).WordCount = 3 ∧
    (Message.mk RoleUser (str " \t\n")).WordCount = 0 :=
  have h : Runs (str "  hello \t big world\n") [str "hello", str "big", str "world"] :=
    Fields_runs (str "  hello \t big world\n")
  ⟨h, (WordCount_eq_runs (Message.mk RoleUser (str "  hello \t big world\n"))).2.1 _ h,
    (WordCount_eq_runs (Message.mk RoleUser (str " \t\n"))).2.2.1
      (AllSpace.cons [0x20] _ (by decide) (AllSpace.cons [0x09] _ (by decide)
        (AllSpace.cons [0x0A] _ (by decide) AllSpace.nil)))⟩

/-! ## `Contains` and `ToLower` -/

theorem Contains_iff (sub : GoString) :
    ∀ s : GoString, Contains s sub = true ↔ ∃ a b : GoString, s = a ++ sub ++ b
  | [] => by
    unfold Contains
    rw [List.isPrefixOf_iff_prefix]
    constructor
    · rintro ⟨t, ht⟩
      exact ⟨[], t, by simpa using ht.symm⟩
    · rintro ⟨a, b, h⟩
      have h1 : a = [] := by
        have := congrArg List.length h
        simp at this
        exact List.length_eq_zero.mp (by omega)
      have h2 : sub = [] := by
        have := congrArg List.length h
        simp at this
        exact List.length_eq_zero.mp (by omega)
      simp [h2]
  | c :: s => by
    unfold Contains
    rw [Bool.or_eq_true, List.isPrefixOf_iff_prefix, Contains_iff sub s]
    constructor
    · rintro (⟨t, ht⟩ | ⟨a, b, h⟩)
      · exact ⟨[], t, by simpa using ht.symm⟩
      · exact ⟨c :: a, b, by rw [h]; simp⟩
    · rintro ⟨a, b, h⟩
      rcases a with _ | ⟨x, a⟩
      · left
        exact ⟨b, by simpa using h.symm⟩
      · right
        simp only [List.cons_append] at h
        injection h with _ h
        exact ⟨a, b, h⟩

theorem lowerFlush_nil (f : GoString → GoString) : lowerFlush f [] = [] := rfl

/-- On a run of bytes of ASCII, `ToLower` works byte by byte. -/
theorem toLowerAux_ascii (f : GoString → GoString) (rest : GoString) :
    ∀ w : GoString, (∀ c ∈ w, c.toNat < 0x80) →
      toLowerAux f (w ++ rest) [] = w.map asciiLower ++ toLowerAux f rest []
  | [], _ => rfl
  | c :: w, h => by
    have hc : c.toNat < 0x80 := h c (List.mem_cons_self _ _)
    have hw : ∀ x ∈ w, x.toNat < 0x80 := fun x hx => h x (List.mem_cons_of_mem _ hx)
    rw [List.cons_append, toLowerAux, if_pos hc, lowerFlush_nil, toLowerAux_ascii f rest w hw]
    rfl

/-- A run of bytes of ASCII in a string is, in lower case, a run of bytes of
the result of `ToLower`. -/
theorem toLowerAux_contains (f : GoString → GoString) (w b : GoString)
    (hw : ∀ c ∈ w, c.toNat < 0x80) :
    ∀ (a pend : GoString), ∃ x y : GoString,
      toLowerAux f (a ++ w ++ b) pend = x ++ w.map asciiLower ++ y
  | [], pend => by
    rcases w with _ | ⟨c, w⟩
    · exact ⟨[], toLowerAux f ([] ++ [] ++ b) pend, by simp⟩
    · have hc : c.toNat < 0x80 := hw c (List.mem_cons_self _ _)
      have hw2 : ∀ x ∈ w, x.toNat < 0x80 := fun x hx => hw x (List.mem_cons_of_mem _ hx)
      refine ⟨lowerFlush f pend, toLowerAux f b [], ?_⟩
      rw [List.nil_append, List.cons_append, toLowerAux, if_pos hc, toLowerAux_ascii f b w hw2]
      simp
  | c :: a, pend => by
    by_cases hc : c.toNat < 0x80
    · obtain ⟨x, y, h⟩ := toLowerAux_contains f w b hw a []
      refine ⟨lowerFlush f pend ++ [asciiLower c] ++ x, y, ?_⟩
      rw [List.cons_append, List.cons_append, toLowerAux, if_pos hc, h]
      simp
    · obtain ⟨x, y, h⟩ := toLowerAux_contains f w b hw a (pend ++ [c])
      refine ⟨x, y, ?_⟩
      rw [List.cons_append, List.cons_append, toLowerAux, if_neg hc, h]

theorem asciiLower_of_not_ascii (c : UInt8) (h : ¬ c.toNat < 0x80) : asciiLower c = c := by
  unfold asciiLower
  rw [if_neg (by omega)]

/-- A string that `asciiLower` maps, byte by byte, to a string of ASCII is a
string of ASCII. -/
theorem ascii_of_map_asciiLower (w k : GoString) (hk : ∀ c ∈ k, c.toNat < 0x80)
    (h : w.map asciiLower = k) : ∀ c ∈ w, c.toNat < 0x80 := by
  intro c hc
  by_contra hn
  have h1 : asciiLower c ∈ k := by
    rw [← h]; exact List.mem_map_of_mem _ hc
  rw [asciiLower_of_not_ascii c hn] at h1
  exact hn (hk c h1)

/-- If `s` contains, in any mix of upper and lower case, the ASCII keyword `k`,
then `ToLower s` contains `k`. -/
theorem Contains_ToLower (f : GoString → GoString) (s a w b k : GoString)
    (hs : s = a ++ w ++ b) (hk : ∀ c ∈ k, c.toNat < 0x80) (hw : w.map asciiLower = k) :
    Contains (ToLower f s) k = true := by
  obtain ⟨x, y, h⟩ := toLowerAux_contains f w b (ascii_of_map_asciiLower w k hk hw) a []
  rw [Contains_iff]
  refine ⟨x, y, ?_⟩
  unfold ToLower
  rw [hs, h, hw]

/-! ## The loop of `MockModel.Generate` -/

theorem lastUserMessage_eq (pre post : List Message) (um : Message)
    (hu : um.Role = RoleUser) (hpost : ∀ x ∈ post, x.Role ≠ RoleUser) :
    lastUserMessage (pre ++ um :: post) = um.Content := by
  unfold lastUserMessage
  have h1 : post.reverse.find? (fun m => decide (m.Role = RoleUser)) = none := by
    rw [List.find?_eq_none]
    intro x hx
    simpa using hpost x (List.mem_reverse.mp hx)
  rw [List.reverse_append, List.reverse_cons, List.append_assoc, List.find?_append,
    List.find?_append, h1]
  simp [hu]

/-- `Generate` reads, of its messages, the last one with the role `user`
only. -/
theorem MockModel_Generate_last (f : GoString → GoString) (m : MockModel) (ctx : Context)
    (pre post : List Message) (um : Message)
    (hu : um.Role = RoleUser) (hpost : ∀ x ∈ post, x.Role ≠ RoleUser) :
    MockModel.Generate f m ctx (pre ++ um :: post) = MockModel.Generate f m ctx [um] := by
  have h1 := lastUserMessage_eq pre post um hu hpost
  have h2 := lastUserMessage_eq [] [] um hu (by simp)
  simp only [List.nil_append] at h2
  unfold MockModel.Generate
  rw [h1, h2]
  simp

/-! ## The claims on `MockModel.Generate` -/

theorem lastUserMessage_single (um : Message) (hu : um.Role = RoleUser) :
    lastUserMessage [um] = um.Content := by
  simpa using lastUserMessage_eq [] [] um hu (by simp)

/-- C14: when the context is not done and the last user-role message of the
list has a content that contains `"hello"` in any mix of upper and lower case,
`Generate` returns the greeting reply and no error, whatever else the content
contains. -/
theorem MockModel_Generate_greeting (lowerRunes : GoString → GoString) (m : MockModel)
    (ctx : Context) (pre post : List Message) (um : Message) (a w b : GoString)
    (hctx : ctx.Done = false) (hu : um.Role = RoleUser)
    (hpost : ∀ x ∈ post, x.Role ≠ RoleUser)
    (hc : um.Content = a ++ w ++ b) (hw : w.map asciiLower = str "hello") :
    MockModel.Generate lowerRunes m ctx (pre ++ um :: post) =
      (str "Hello! How can I help you today?", none) := by
  rw [MockModel_Generate_last lowerRunes m ctx pre post um hu hpost]
  have hl := lastUserMessage_single um hu
  have hk : Contains (ToLower lowerRunes um.Content) (str "hello") = true :=
    Contains_ToLower lowerRunes _ a w b _ hc (by decide) hw
  have hne : um.Content ≠ [] := by
    intro h0
    rw [hc] at h0
    have hw0 : w = [] := (List.append_eq_nil.mp (List.append_eq_nil.mp h0).1).2
    rw [hw0] at hw
    revert hw
    decide
  simp [MockModel.Generate, hctx, hl, hne, hk]

/-- C14 at concrete inputs: the last user message `"Well, HeLLo there! What is
the weather?"`, after an older user message and before an assistant message,
gets the greeting reply. -/
theorem MockModel_Generate_greeting_witness :
    MockModel.Generate id NewMockModel Context.Background
        ([NewSystemMessage (str "Be terse."), NewUserMessage (str "bye")] ++
          NewUserMessage (str "Well, HeLLo there! What is the weather?") ::
          [NewAssistantMessage (str "thanks")]) =
      (str "Hello! How can I help you today?", none) :=
  MockModel_Generate_greeting id NewMockModel Context.Background
    [NewSystemMessage (str "Be terse."), NewUserMessage (str "bye")]
    [NewAssistantMessage (str "thanks")]
    (NewUserMessage (str "Well, HeLLo there! What is the weather?"))
    (str "Well, ") (str "HeLLo") (str " there! What is the weather?")
    rfl rfl (by decide) (by decide) (by decide)

/-- C15: when the context is not done and the last user-role message of the
list has a content that contains `"2+2"` or `"2 + 2"` and that, in lower case,
contains none of `"hello"`, `"hi"`, `"weather"`, `"time"`, `"math"`,
`"calculate"`, `Generate` returns `"2 + 2 = 4"` and no error. -/
theorem MockModel_Generate_arithmetic (lowerRunes : GoString → GoString) (m : MockModel)
    (ctx : Context) (pre post : List Message) (um : Message)
    (hctx : ctx.Done = false) (hu : um.Role = RoleUser)
    (hpost : ∀ x ∈ post, x.Role ≠ RoleUser)
    (h22 : Contains um.Content (str "2+2") = true ∨ Contains um.Content (str "2 + 2") = true)
    (h1 : Contains (ToLower lowerRunes um.Content) (str "hello") = false)
    (h2 : Contains (ToLower lowerRunes um.Content) (str "hi") = false)
    (h3 : Contains (ToLower lowerRunes um.Content) (str "weather") = false)
    (h4 : Contains (ToLower lowerRunes um.Content) (str "time") = false)
    (h5 : Contains (ToLower lowerRunes um.Content) (str "math") = false)
    (h6 : Contains (ToLower lowerRunes um.Content) (str "calculate") = false) :
    MockModel.Generate lowerRunes m ctx (pre ++ um :: post) = (str "2 + 2 = 4", none) := by
  rw [MockModel_Generate_last lowerRunes m ctx pre post um hu hpost]
  have hl := lastUserMessage_single um hu
  have hne : um.Content ≠ [] := by
    intro h0
    rw [h0] at h22
    revert h22
    decide
  rcases h22 with h | h
  · obtain ⟨a, b, hab⟩ := (Contains_iff _ _).mp h
    have hk : Contains (ToLower lowerRunes um.Content) (str "2+2") = true :=
      Contains_ToLower lowerRunes _ a (str "2+2") b _ hab (by decide) (by decide)
    simp [MockModel.Generate, hctx, hl, hne, h1, h2, h3, h4, h5, h6, hk]
  · obtain ⟨a, b, hab⟩ := (Contains_iff _ _).mp h
    have hk : Contains (ToLower lowerRunes um.Content) (str "2 + 2") = true :=
      Contains_ToLower lowerRunes _ a (str "2 + 2") b _ hab (by decide) (by decide)
    simp [MockModel.Generate, hctx, hl, hne, h1, h2, h3, h4, h5, h6, hk]

/-- C15 at the input of the specification: `"What is 2+2?"` gets the reply
`"2 + 2 = 4"`. -/
theorem MockModel_Generate_arithmetic_witness :
    MockModel.Generate id NewMockModel Context.Background
        ([] ++ NewUserMessage (str "What is 2+2?") :: []) = (str "2 + 2 = 4", none) :=
  MockModel_Generate_arithmetic id NewMockModel Context.Background [] []
    (NewUserMessage (str "What is 2+2?")) rfl rfl (by decide) (Or.inl (by decide))
    (by decide) (by decide) (by decide) (by decide) (by decide) (by decide)

/-- C16: with a context that is not done, `Generate` on the empty message list
fails with the error `"no messages provided"` and the empty text, and on every
non-empty message list it returns a non-empty reply and no error. -/
theorem MockModel_Generate_empty_nonempty (lowerRunes : GoString → GoString) (m : MockModel)
    (ctx : Context) (hctx : ctx.Done = false) :
    MockModel.Generate lowerRunes m ctx [] =
      (str "", some (.errorf (str "no messages provided"))) ∧
    ∀ messages : List Message, messages ≠ [] →
      (MockModel.Generate lowerRunes m ctx messages).2 = none ∧
      (MockModel.Generate lowerRunes m ctx messages).1 ≠ str "" := by
  constructor
  · simp [MockModel.Generate, hctx]
  · intro messages hne
    have hlen : ¬ messages.length = 0 := by
      rw [List.length_eq_zero]; exact hne
    have hd : ¬ ctx.Done = true := by simp [hctx]
    unfold MockModel.Generate
    rw [if_neg hd, if_neg hlen]
    simp only
    split_ifs
    all_goals first
      | exact ⟨rfl, by decide⟩
      | exact ⟨rfl, by
          intro h0
          have := congrArg List.length h0
          rw [List.length_append, List.length_append] at this
          revert this
          generalize (lastUserMessage messages).length = n
          intro this
          have h1 : (str "I understand you said: \"").length = 24 := by decide
          have h2 : (str "").length = 0 := by decide
          omega⟩

/-- C16 at concrete inputs: the empty list gives the error, and the list with
one system message, which has no user message, gives the fixed reply. -/
theorem MockModel_Generate_empty_nonempty_witness :
    MockModel.Generate id NewMockModel Context.Background [] =
      (str "", some (.errorf (str "no messages provided"))) ∧
    MockModel.Generate id NewMockModel Context.Background [NewSystemMessage (str "s")] =
      (str "I didn't receive any user input.", none) :=
  ⟨(MockModel_Generate_empty_nonempty id NewMockModel Context.Background rfl).1, rfl⟩

/-- C17: when the context is done, `Generate` returns the empty text and the
error of the context, for every message list, the empty one too; that error
is not the error `"no messages provided"` when it is one of the two errors of
the package `context`. -/
theorem MockModel_Generate_done (lowerRunes : GoString → GoString) (m : MockModel)
    (ctx : Context) (messages : List Message) (hd : ctx.Done = true) :
    MockModel.Generate lowerRunes m ctx messages = (str "", ctx.Err) ∧
    ((ctx.Err = some .canceled ∨ ctx.Err = some .deadlineExceeded) →
      (MockModel.Generate lowerRunes m ctx messages).2 ≠
        some (.errorf (str "no messages provided"))) := by
  have h : MockModel.Generate lowerRunes m ctx messages = (str "", ctx.Err) := by
    simp [MockModel.Generate, hd]
  refine ⟨h, ?_⟩
  rw [h]
  rintro (he | he) <;> simp [he]

/-- C17 at concrete inputs: with a cancelled context, the empty list and a
list with a greeting both give the empty text and the error
`context.Canceled`. -/
theorem MockModel_Generate_done_witness :
    MockModel.Generate id NewMockModel { Done := true, Err := some .canceled } [] =
      (str "", some .canceled) ∧
    MockModel.Generate id NewMockModel { Done := true, Err := some .canceled }
        [NewUserMessage (str "hello")] = (str "", some .canceled) :=
  ⟨(MockModel_Generate_done id NewMockModel { Done := true, Err := some .canceled } [] rfl).1,
   (MockModel_Generate_done id NewMockModel { Done := true, Err := some .canceled }
      [NewUserMessage (str "hello")] rfl).1⟩

/-! ## The claims on `Agent.Run` -/

/-- C12, as stated, fails: an agent with no model, run on the empty input,
fails with the error `"agent has no model"`, not with the error
`"user input cannot be empty"`. -/
theorem Agent_Run_no_model_empty_input :
    (Agent.Run (NewAgent (str "Be terse.") (none : Option (Model Unit)))
        Context.Background (str "") ()).err = some (.errorf (str "agent has no model")) ∧
    (Agent.Run (NewAgent (str "Be terse.") (none : Option (Model Unit)))
        Context.Background (str "") ()).err ≠
      some (.errorf (str "user input cannot be empty")) := by
  constructor
  · rfl
  · have e : (Agent.Run (NewAgent (str "Be terse.") (none : Option (Model Unit)))
        Context.Background (str "") ()).err = some (.errorf (str "agent has no model")) := rfl
    rw [e]
    decide

/-- C12, amended: an agent with no model fails with the error
`"agent has no model"` on every input, and an agent with a model fails with the
error `"user input cannot be empty"` on the empty input; in both cases the text
returned is empty, the agent is unchanged, and the state of the backend is
unchanged (`Generate` is not called). -/
theorem Agent_Run_input_checks {σ : Type} (a : Agent σ) (ctx : Context) (s : σ) :
    (a.Model = none → ∀ userInput : GoString,
      a.Run ctx userInput s =
        { text := str "", err := some (.errorf (str "agent has no model")),
          agent := a, backend := s }) ∧
    (∀ model : Model σ, a.Model = some model →
      a.Run ctx (str "") s =
        { text := str "", err := some (.errorf (str "user input cannot be empty")),
          agent := a, backend := s }) := by
  constructor
  · intro h userInput
    unfold Agent.Run
    rw [h]
  · intro model h
    unfold Agent.Run
    rw [h]
    simp only
    rw [if_pos (by decide)]

/-- C12, amended, at concrete inputs, with the backend that records its calls:
without a model, and with the recording backend on the empty input, no call is
recorded; on the input `"x"` the call is. -/
theorem Agent_Run_input_checks_witness :
    (Agent.Run (NewAgent (str "p") (none : Option (Model (List (List Message)))))
        Context.Background (str "x") []).backend = [] ∧
    (Agent.Run (NewAgent (str "p") (some recordingModel))
        Context.Background (str "") []).backend = [] ∧
    (Agent.Run (NewAgent (str "p") (some recordingModel))
        Context.Background (str "x") []).backend =
      [[NewSystemMessage (str "p"), NewUserMessage (str "x")]] :=
  ⟨congrArg RunOutcome.backend
      ((Agent_Run_input_checks (NewAgent (str "p") (none : Option (Model (List (List Message)))))
        Context.Background []).1 rfl (str "x")),
   congrArg RunOutcome.backend
      ((Agent_Run_input_checks (NewAgent (str "p") (some recordingModel))
        Context.Background []).2 recordingModel rfl),
   rfl⟩

/-- C13: with a model set and a non-empty input, `Run` returns what the
`Generate` of the backend returns on `[system(SystemPrompt), user(userInput)]`
when the system prompt is not empty, and on `[user(userInput)]` when it is
empty; the state of the backend is the one `Generate` leaves, and the agent is
unchanged. -/
theorem Agent_Run_delegates {σ : Type} (a : Agent σ) (model : Model σ) (ctx : Context)
    (userInput : GoString) (s : σ) (hm : a.Model = some model) (hne : userInput ≠ str "") :
    (a.SystemPrompt ≠ str "" →
      a.Run ctx userInput s =
        { text := (model.Generate ctx
            [NewSystemMessage a.SystemPrompt, NewUserMessage userInput] s).1.1,
          err := (model.Generate ctx
            [NewSystemMessage a.SystemPrompt, NewUserMessage userInput] s).1.2,
          agent := a,
          backend := (model.Generate ctx
            [NewSystemMessage a.SystemPrompt, NewUserMessage userInput] s).2 }) ∧
    (a.SystemPrompt = str "" →
      a.Run ctx userInput s =
        { text := (model.Generate ctx [NewUserMessage userInput] s).1.1,
          err := (model.Generate ctx [NewUserMessage userInput] s).1.2,
          agent := a,
          backend := (model.Generate ctx [NewUserMessage userInput] s).2 }) := by
  have hne2 : userInput ≠ [] := hne
  constructor
  · intro hp
    have hp2 : a.SystemPrompt ≠ [] := hp
    unfold Agent.Run
    rw [hm]
    simp only
    rw [if_neg hne2]
    unfold Agent.buildMessages
    rw [if_pos hp2]
    rfl
  · intro hp
    have hp2 : ¬ a.SystemPrompt ≠ [] := fun h => h hp
    unfold Agent.Run
    rw [hm]
    simp only
    rw [if_neg hne2]
    unfold Agent.buildMessages
    rw [if_neg hp2]
    rfl

/-- C13 at a concrete input: with the recording backend and the prompt `"p"`,
the input `"x"` returns the `"ok"` of the backend and records the call on
`[system "p", user "x"]`. -/
theorem Agent_Run_delegates_witness :
    Agent.Run (NewAgent (str "p") (some recordingModel)) Context.Background (str "x") [] =
      { text := str "ok", err := none,
        agent := NewAgent (str "p") (some recordingModel),
        backend := [[NewSystemMessage (str "p"), NewUserMessage (str "x")]] } :=
  (Agent_Run_delegates (NewAgent (str "p") (some recordingModel)) recordingModel
    Context.Background (str "x") [] rfl (by decide)).1 (by decide)

/-! ## The claim on the response handling of `GeminiModel.Generate` -/

/-- C18: when the messages translate and the request gives a decoded response,
`Generate` fails with `"no response candidates returned"` when the response has
no candidate, fails with `"no response parts returned"` when the first
candidate has no part, and otherwise returns the text of the first part of the
first candidate and no error, whatever the other candidates and parts are. -/
theorem GeminiModel_Generate_response (net : Http) (g : GeminiModel) (ctx : Context)
    (messages : List Message) (geminiMessages : List GeminiMessage)
    (response : GeminiResponse)
    (hconv : GeminiModel.convertMessages messages = .ok geminiMessages)
    (hreq : g.makeRequest net ctx (GeminiModel.payload geminiMessages) = .ok response) :
    (response.Candidates = [] →
      g.Generate net ctx messages =
        (str "", some (.errorf (str "no response candidates returned")))) ∧
    (∀ (c : GeminiCandidate) (cs : List GeminiCandidate),
      response.Candidates = c :: cs → c.Content.Parts = [] →
      g.Generate net ctx messages =
        (str "", some (.errorf (str "no response parts returned")))) ∧
    (∀ (c : GeminiCandidate) (cs : List GeminiCandidate) (p : GeminiPart)
      (ps : List GeminiPart),
      response.Candidates = c :: cs → c.Content.Parts = p :: ps →
      g.Generate net ctx messages = (p.Text, none)) := by
  refine ⟨?_, ?_, ?_⟩
  · intro h
    unfold GeminiModel.Generate
    rw [hconv]
    simp only
    rw [hreq]
    simp only
    rw [h]
  · intro c cs h hp
    unfold GeminiModel.Generate
    rw [hconv]
    simp only
    rw [hreq]
    simp only
    rw [h]
    simp only
    rw [hp]
  · intro c cs p ps h hp
    unfold GeminiModel.Generate
    rw [hconv]
    simp only
    rw [hreq]
    simp only
    rw [h]
    simp only
    rw [hp]

/-- C18 at a concrete input: a response with two candidates, the first with the
parts `"first"` and `"second"`, gives the text `"first"`. -/
theorem GeminiModel_Generate_response_witness :
    GeminiModel.Generate
        (fixedHttp { Candidates :=
          [{ Content := { Parts := [{ Text := str "first" }, { Text := str "second" }] } },
           { Content := { Parts := [{ Text := str "other" }] } }] })
        { apiKey := str "k", modelName := str "gemini-1.5-flash", baseURL := str "u" }
        Context.Background [NewUserMessage (str "hi")] = (str "first", none) :=
  (GeminiModel_Generate_response
    (fixedHttp { Candidates :=
      [{ Content := { Parts := [{ Text := str "first" }, { Text := str "second" }] } },
       { Content := { Parts := [{ Text := str "other" }] } }] })
    { apiKey := str "k", modelName := str "gemini-1.5-flash", baseURL := str "u" }
    Context.Background [NewUserMessage (str "hi")]
    [{ Role := str "user", Parts := [{ Text := str "hi" }] }]
    { Candidates :=
      [{ Content := { Parts := [{ Text := str "first" }, { Text := str "second" }] } },
       { Content := { Parts := [{ Text := str "other" }] } }] }
    rfl rfl).2.2
    { Content := { Parts := [{ Text := str "first" }, { Text := str "second" }] } }
    [{ Content := { Parts := [{ Text := str "other" }] } }]
    { Text := str "first" } [{ Text := str "second" }] rfl rfl

/-! ## The agent with the mock backend -/

theorem MockModel_Generate_thanks (f : GoString → GoString) (m : MockModel) (ctx : Context)
    (hctx : ctx.Done = false) :
    MockModel.Generate f m ctx [NewUserMessage (str "thanks!")] =
      (str "You're welcome! Happy to help.", none) := by
  unfold MockModel.Generate
  rw [if_neg (by simp [hctx])]
  rfl

/-- C19: for every system prompt, an agent made of that prompt and a mock
backend, run with a context that is not done on the input `"thanks!"`, returns
the reply `"You're welcome! Happy to help."` and no error. -/
theorem Agent_Run_mock_thanks (lowerRunes : GoString → GoString) (systemPrompt : GoString)
    (mock : MockModel) (ctx : Context) (hctx : ctx.Done = false) :
    (Agent.Run (NewAgent systemPrompt (some (MockModel.toModel lowerRunes))) ctx
        (str "thanks!") mock).text = str "You're welcome! Happy to help." ∧
    (Agent.Run (NewAgent systemPrompt (some (MockModel.toModel lowerRunes))) ctx
        (str "thanks!") mock).err = none := by
  have hgen : MockModel.Generate lowerRunes mock ctx
      ((NewAgent systemPrompt (some (MockModel.toModel lowerRunes))).buildMessages
        (str "thanks!")) = (str "You're welcome! Happy to help.", none) := by
    unfold Agent.buildMessages NewAgent
    simp only
    rw [MockModel_Generate_last lowerRunes mock ctx _ [] ⟨RoleUser, str "thanks!"⟩ rfl
      (by simp)]
    exact MockModel_Generate_thanks lowerRunes mock ctx hctx
  exact ⟨congrArg Prod.fst hgen, congrArg Prod.snd hgen⟩

/-- C19 at the input of the specification: the prompt `"Be terse."`, the mock
backend, `context.Background()` and the input `"thanks!"`. -/
theorem Agent_Run_mock_thanks_witness :
    (Agent.Run (NewAgent (str "Be terse.") (some (MockModel.toModel id))) Context.Background
        (str "thanks!") NewMockModel).text = str "You're welcome! Happy to help." ∧
    (Agent.Run (NewAgent (str "Be terse.") (some (MockModel.toModel id))) Context.Background
        (str "thanks!") NewMockModel).err = none :=
  Agent_Run_mock_thanks id (str "Be terse.") NewMockModel Context.Background rfl

/-! ## The messages of the agent and `Validate` -/

theorem Validate_system_ok (c : GoString) :
    (Message.mk RoleSystem c).Validate = .ok () := by
  have hv : Role.IsValid RoleSystem = true := (Role_IsValid_iff _).mpr (Or.inr (Or.inr rfl))
  simp [Message.Validate, hv, Message.IsSystem]

theorem Validate_user_ok_iff (c : GoString) :
    (Message.mk RoleUser c).Validate = .ok () ↔ ¬ AllSpace c := by
  have hv : Role.IsValid RoleUser = true := (Role_IsValid_iff _).mpr (Or.inl rfl)
  have hs : (Message.mk RoleUser c).IsSystem = false := by
    simp [Message.IsSystem, roleUser_ne_roleSystem]
  by_cases he : (Message.mk RoleUser c).IsEmpty = true
  · have hc : AllSpace c := (IsEmpty_iff _).mp he
    simp [Message.Validate, hv, hs, he, hc]
  · have hc : ¬ AllSpace c := fun h => he ((IsEmpty_iff (Message.mk RoleUser c)).mpr h)
    simp [Message.Validate, hv, he, hc]

/-- C20, as stated, fails: the input `" "` is not the empty string, so `Run`
with a model set passes its two checks and calls `Generate`, and the user
message that `buildMessages` makes of it fails `Validate` with the
empty-content error. -/
theorem buildMessages_blank_input_invalid :
    str " " ≠ str "" ∧
    (Agent.Run (NewAgent (str "Be terse.") (some recordingModel)) Context.Background
        (str " ") []).backend =
      [(NewAgent (str "Be terse.") (some recordingModel)).buildMessages (str " ")] ∧
    NewUserMessage (str " ") ∈
      (NewAgent (str "Be terse.") (some recordingModel)).buildMessages (str " ") ∧
    (NewUserMessage (str " ")).Validate = .error (.EmptyContent RoleUser) :=
  ⟨by decide, rfl, by decide, rfl⟩

/-- C20, amended: every message that `buildMessages` makes passes `Validate`
exactly when the input is not blank, that is, not empty and not made of white
space only; the system message always passes. -/
theorem buildMessages_valid_iff {σ : Type} (a : Agent σ) (userInput : GoString) :
    (∀ m ∈ a.buildMessages userInput, m.Validate = .ok ()) ↔ ¬ AllSpace userInput := by
  unfold Agent.buildMessages
  constructor
  · intro h
    have := h ⟨RoleUser, userInput⟩ (by simp)
    exact (Validate_user_ok_iff userInput).mp this
  · intro h m hm
    rw [List.mem_append] at hm
    rcases hm with hm | hm
    · by_cases hp : a.SystemPrompt ≠ []
      · rw [if_pos hp] at hm
        rw [List.mem_singleton.mp hm]
        exact Validate_system_ok _
      · rw [if_neg hp] at hm
        cases hm
    · rw [List.mem_singleton.mp hm]
      exact (Validate_user_ok_iff userInput).mpr h

/-- C20, amended, at a concrete input: the two messages made of the prompt
`"Be terse."` and the input `"hi"` pass `Validate`. -/
theorem buildMessages_valid_iff_witness :
    ∀ m ∈ (NewAgent (str "Be terse.") (some recordingModel)).buildMessages (str "hi"),
      m.Validate = .ok () :=
  (buildMessages_valid_iff (NewAgent (str "Be terse.") (some recordingModel)) (str "hi")).mpr
    (fun h => by
      have := (IsEmpty_iff (Message.mk RoleUser (str "hi"))).mpr h
      revert this
      decide)

end GoAgent
